import Mathlib

/-!
A verification development for the simple HTTP server.

Shallow embedding of `utils.h` and `http_server.cpp`.

* A `std::string` is a list of characters (`Str`); it may hold any character,
  the NUL character included, as the strings built from the receive buffer can.
* The global `std::map` tables are read with `operator[]`, which hands back a
  value-initialised entry for a key that is absent (`0`, the first enumerator,
  the empty string).  The entry it inserts is that same default, so later reads
  are not changed by it and the tables are modelled as pure lookups.
* Undefined behaviour (a vector index past the end, an iterator before
  `begin()`) and an uncaught exception are the result `none`.
* The file system is an oracle from a path to the state of the `std::ifstream`
  opened on it.
-/

namespace HttpServer

/-- The type of a `std::string`. -/
abbrev Str := List Char

/-! ## utils.h : constants and tables -/

def DEFAULT_URI : Str := "/index.html".toList

def QUIT_SERVER : Str := "/quit".toList

def EXIT_MSG : Str := "Shutting down.\n".toList

def EXIT_MSG_SZ : Nat := 16

def BUF_SIZE : Nat := 1024

/-- The characters of `ws = " \t\n\r\f\v"`. -/
def ws : Str := [' ', '\t', '\n', '\r', Char.ofNat 12, Char.ofNat 11]

inductive HttpRequestType where
  | GET
  | PUT
  | DELETE
  | POST
  deriving DecidableEq, Repr

/-- Reading `m[key]` on a `std::map`: the stored value, or the value-initialised
one when the key is absent. -/
def mapIndex {β : Type} (table : List (Str × β)) (dflt : β) (key : Str) : β :=
  match table.lookup key with
  | some v => v
  | none => dflt

def httpRequestToString_entries : List (Str × HttpRequestType) :=
  [("GET".toList, HttpRequestType.GET),
   ("PUT".toList, HttpRequestType.PUT),
   ("DELETE".toList, HttpRequestType.DELETE),
   ("POST".toList, HttpRequestType.POST)]

/-- The lookup `httpRequestToString[token]`; the value-initialised
`HttpRequestType` is its first enumerator, `GET`. -/
def httpRequestToString (token : Str) : HttpRequestType :=
  mapIndex httpRequestToString_entries HttpRequestType.GET token

/-- The lookup `stringToHttpRequest[verb]`; every enumerator is a key. -/
def stringToHttpRequest : HttpRequestType → Str
  | HttpRequestType.GET => "GET".toList
  | HttpRequestType.PUT => "PUT".toList
  | HttpRequestType.DELETE => "DELETE".toList
  | HttpRequestType.POST => "POST".toList

def httpErrorCode_entries : List (Str × Int) :=
  [("SUCCESS".toList, 200), ("FAILURE".toList, 404)]

def httpErrorCode (key : Str) : Int :=
  mapIndex httpErrorCode_entries 0 key

def contentType_entries : List (Str × Str) :=
  [("png".toList, "image/png".toList),
   ("css".toList, "text/css".toList),
   ("js".toList, "text/javascript".toList),
   ("html".toList, "text/html".toList),
   ("txt".toList, "text/plaintext".toList)]

def contentType (fileFormat : Str) : Str :=
  mapIndex contentType_entries [] fileFormat

/-! ## utils.h : numbers to text -/

/-- The text `std::to_string` gives for an unsigned value. -/
def to_string_nat (n : Nat) : Str := Nat.toDigits 10 n

/-- The text `std::to_string` and `operator<<` give for an `int`. -/
def to_string_int (i : Int) : Str :=
  if i < 0 then '-' :: Nat.toDigits 10 i.natAbs else Nat.toDigits 10 i.toNat

/-! ## utils.h : the structures -/

structure http_header_t where
  key : Str
  value : Str
  deriving DecidableEq, Repr

def http_header_t.to_string (h : http_header_t) : Str :=
  h.key ++ ": ".toList ++ h.value

structure http_request_t where
  verb : HttpRequestType
  version : Str
  uri : Str
  headers : List http_header_t
  deriving DecidableEq, Repr

/-- The loop `for (header : headers) sso << " " << header.to_string();`. -/
def requestHeadersLoop : List http_header_t → Str → Str
  | [], sso => sso
  | header :: rest, sso => requestHeadersLoop rest (sso ++ " ".toList ++ header.to_string)

def http_request_t.to_string (r : http_request_t) : Str :=
  requestHeadersLoop r.headers
    (stringToHttpRequest r.verb ++ " ".toList ++ r.uri ++ " version ".toList ++ r.version)

structure http_response_t where
  version : Str
  status_code : Int
  status_txt : Str
  body : Str
  headers : List http_header_t
  deriving DecidableEq, Repr

/-- A default-constructed `http_response_t`: `version` is "1.0", the strings and
the vector are empty.  `status_code` has no initialiser in the source; every path
of `handleHTTPrequest` assigns it before the response is returned, and `0`
stands for the indeterminate value here. -/
def http_response_t.fresh : http_response_t :=
  { version := "1.0".toList, status_code := 0, status_txt := [], body := [], headers := [] }

/-- The loop `for (header : headers) sso << header.to_string() << "\r\n";`. -/
def responseHeadersLoop : List http_header_t → Str → Str
  | [], sso => sso
  | header :: rest, sso => responseHeadersLoop rest (sso ++ header.to_string ++ "\r\n".toList)

def http_response_t.to_string (r : http_response_t) : Str :=
  responseHeadersLoop r.headers
      ("HTTP/".toList ++ r.version ++ " ".toList ++ to_string_int r.status_code ++ " ".toList
        ++ r.status_txt ++ "\r\n".toList)
    ++ "\r\n".toList

/-! ## utils.h : trim and split -/

/-- Membership of a character in the set `t` of `find_last_not_of(t)` and
`find_first_not_of(t)`. -/
def inSet (t : Str) (c : Char) : Bool := t.contains c

/-- The function `rtrim`: `s.erase(s.find_last_not_of(t) + 1)` removes everything
after the last character outside `t`; when there is none, `npos + 1` is `0` and
the whole string is erased. -/
def rtrim (s : Str) (t : Str) : Str := s.rdropWhile (inSet t)

/-- The function `ltrim`: `s.erase(0, s.find_first_not_of(t))` removes everything
before the first character outside `t`; when there is none, the count is `npos`
and the whole string is erased. -/
def ltrim (s : Str) (t : Str) : Str := s.dropWhile (inSet t)

/-- The function `trim` with its default set `ws`. -/
def trim (s : Str) : Str := ltrim (rtrim s ws) ws

/-- One call `getline(ss, piece, delim)` on the unread part `ss` of the stream:
`none` when no character can be extracted (the call sets failbit and the loop of
`split` ends), otherwise the piece read and the part left unread, the delimiter
extracted and dropped. -/
def getline (ss : Str) (delim : Char) : Option (Str × Str) :=
  if ss = [] then none
  else some (ss.takeWhile (fun c => c != delim), (ss.dropWhile (fun c => c != delim)).drop 1)

/-- The loop `while (getline(ss, piece, delim)) ...` of `split`; each turn
consumes at least one character, so `fuel` above the length of `ss` is never
used up. -/
def splitLoop : Nat → Str → Char → Bool → List Str → List Str
  | 0, _, _, _, res => res
  | fuel + 1, ss, delim, recurse, res =>
    match getline ss delim with
    | none => res
    | some (piece, ss') =>
      splitLoop fuel ss' (if recurse then delim else Char.ofNat 0) recurse (res ++ [piece])

def split (src : Str) (delim : Char) (recurse : Bool) : List Str :=
  splitLoop (src.length + 1) src delim recurse []

/-- The function `getURIContentType`; `tokens[tokens.size() - 1]` is out of range
when `tokens` is empty. -/
def getURIContentType (uri : Str) : Option Str :=
  let tokens := split uri '.' true
  match tokens.getLast? with
  | none => none
  | some fileFormat => some (contentType fileFormat)

def buildSuccessfulHTTPresponse (http_response : http_response_t) : http_response_t :=
  { http_response with status_code := httpErrorCode "SUCCESS".toList, status_txt := "OK".toList }

def buildFailureHTTPresponse (http_response : http_response_t) (message : Str) :
    http_response_t :=
  { http_response with status_code := httpErrorCode "FAILURE".toList, status_txt := message }

/-! ## http_server.cpp -/

/-- The function `cleanHttpVersion`: the range `[end() - 3, end())` of the trimmed
token; `end() - 3` lies before `begin()` when fewer than three characters are
left. -/
def cleanHttpVersion (httpVersion : Str) : Option Str :=
  let httpVersion := trim httpVersion
  let versionLen := 3
  if httpVersion.length < versionLen then none
  else some (httpVersion.drop (httpVersion.length - versionLen))

/-- The body of the header loop of `parseHTTPrequest` for one line `tokens[i]`:
the header it builds when `kvp.size() > 1`, with `kvp[0]` and `kvp[1]` trimmed. -/
def headerOfLine (token : Str) : Option http_header_t :=
  match split (trim token) ':' false with
  | k :: v :: _ => some { key := trim k, value := trim v }
  | _ => none

/-- The header loop of `parseHTTPrequest` over `tokens[1]`, `tokens[2]`, ...;
`headers ++ [header]` is `push_back`. -/
def parseHeadersLoop : List Str → List http_header_t → List http_header_t
  | [], headers => headers
  | token :: rest, headers =>
    match headerOfLine token with
    | some header => parseHeadersLoop rest (headers ++ [header])
    | none => parseHeadersLoop rest headers

/-- The function `parseHTTPrequest` (its console echo left out).  The indexings
`tokens[0]`, `requestLine[0]`, `requestLine[1]` and `requestLine[2]` are
unchecked in the source. -/
def parseHTTPrequest (request : Str) : Option http_request_t :=
  let tokens := split request '\n' true
  match tokens[0]? with
  | none => none
  | some line0 =>
    let requestLine := split line0 ' ' true
    let uri? : Option Str := if requestLine.length = 3 then requestLine[1]? else some "/".toList
    match uri?, requestLine[0]?, requestLine[2]? with
    | some uri, some tok0, some tok2 =>
      match cleanHttpVersion tok2 with
      | none => none
      | some version =>
        some { verb := httpRequestToString tok0, version := version, uri := uri,
               headers := parseHeadersLoop (tokens.drop 1) [] }
    | _, _, _ => none

/-- State of a `std::ifstream` that was opened without failure: the `int` that
`file.tellg()` gives at the end of the stream, the bytes the stream delivers from
its beginning, and whether reading meets an I/O error. -/
structure ifstream where
  tellg_end : Int
  content : Str
  bad : Bool

/-- The call `file.read(buffer, n)` from the beginning: `none` when the stream
cannot deliver `n` bytes. -/
def ifstream.read (file : ifstream) (n : Nat) : Option Str :=
  if file.bad || decide (file.content.length < n) then none else some (file.content.take n)

/-- What a call of `handleGETrequest` leaves behind: the response, the path given
to `std::ifstream`, and whether `shutdown(server_sock, SHUT_RDWR)` was called. -/
structure GetOutcome where
  response : http_response_t
  opened : Str
  shutdown : Bool

/-- The normalisation at the head of `handleGETrequest`. -/
def normalizeURI (uri : Str) : Str :=
  if uri = [] ∨ uri = "/".toList then DEFAULT_URI else uri

/-- The function `handleGETrequest`; `fs path` is `none` when `file.fail()` holds
after opening `path`.  A negative `file_size` makes `new char[file_size]` throw,
and nothing catches it. -/
def handleGETrequest (fs : Str → Option ifstream) (uri : Str)
    (http_response : http_response_t) : Option GetOutcome :=
  let uri := normalizeURI uri
  let path := ".".toList ++ uri
  match fs path with
  | none =>
    let http_response := buildFailureHTTPresponse http_response "File not found".toList
    let http_response := { http_response with body := "GET ".toList ++ uri ++ " failed".toList }
    match getURIContentType ".txt".toList with
    | none => none
    | some ct =>
      let content_type : http_header_t := { key := "Content-Type".toList, value := ct }
      let content_length : http_header_t :=
        { key := "Content-Length".toList, value := to_string_nat http_response.body.length }
      let http_response :=
        { http_response with headers := http_response.headers ++ [content_type] }
      let http_response :=
        { http_response with headers := http_response.headers ++ [content_length] }
      some { response := http_response, opened := path, shutdown := decide (uri = QUIT_SERVER) }
  | some file =>
    let file_size : Int := file.tellg_end
    match getURIContentType uri with
    | none => none
    | some ct =>
      let content_type : http_header_t := { key := "Content-Type".toList, value := ct }
      let content_length : http_header_t :=
        { key := "Content-Length".toList, value := to_string_int file_size }
      let http_response :=
        { http_response with headers := http_response.headers ++ [content_type] }
      let http_response :=
        { http_response with headers := http_response.headers ++ [content_length] }
      if file_size < 0 then none
      else
        let http_response :=
          match file.read file_size.toNat with
          | none => http_response
          | some temp => { http_response with body := temp }
        some { response := buildSuccessfulHTTPresponse http_response, opened := path,
               shutdown := false }

/-- What a call of `handleHTTPrequest` leaves behind: the response returned, the
messages given to `writeToPipe` in order, the paths given to `std::ifstream`, and
whether the listening socket was shut down. -/
structure Handled where
  response : http_response_t
  piped : List Str
  opened : List Str
  shutdown : Bool

/-- The function `handleHTTPrequest`. -/
def handleHTTPrequest (fs : Str → Option ifstream) (request : Str) : Option Handled :=
  match parseHTTPrequest request with
  | none => none
  | some http_request =>
    let readMsg := "Read ".toList ++ to_string_nat request.length ++ " bytes: ".toList
      ++ http_request.to_string ++ "\n".toList
    match http_request.verb with
    | HttpRequestType.GET =>
      match handleGETrequest fs http_request.uri http_response_t.fresh with
      | none => none
      | some out =>
        some { response := out.response, piped := [readMsg], opened := [out.opened],
               shutdown := out.shutdown }
    | _ =>
      let errorMessage := "Unknown HTTP request ".toList
        ++ stringToHttpRequest http_request.verb ++ "\n".toList
      some { response := buildFailureHTTPresponse http_response_t.fresh errorMessage,
             piped := [readMsg, errorMessage], opened := [], shutdown := false }

/-! ## utils.h : the log channel -/

/-- The 16 bytes of the string literal `EXIT_MSG`, its terminating NUL included. -/
def EXIT_MSG_bytes : Str := EXIT_MSG ++ [Char.ofNat 0]

/-- The byte `EXIT_MSG[i]` of the literal, for `i` below `EXIT_MSG_SZ`. -/
def EXIT_MSG_at (i : Nat) : Char := EXIT_MSG_bytes.getD i (Char.ofNat 0)

/-- The `for` loop of `foundEndMessage`, entered at `i` with `n` turns left,
`n = EXIT_MSG_SZ - i`.  The result is whether `return true` was reached, the value
of `buffer_index` when the loop is left, and the indices of `buffer` read so far,
in order. -/
def forLoop (buffer : Nat → Char) : Nat → Nat → Nat → List Nat → Bool × Nat × List Nat
  | 0, _, buffer_index, reads => (false, buffer_index, reads)
  | n + 1, i, buffer_index, reads =>
    let buffer_index := buffer_index + 1
    let reads := reads ++ [buffer_index]
    if buffer buffer_index != EXIT_MSG_at i then (false, buffer_index, reads)
    else if i = EXIT_MSG_SZ - 1 then (true, buffer_index, reads)
    else forLoop buffer n (i + 1) buffer_index reads

/-- The `while` loop of `foundEndMessage`; each turn moves `buffer_index` forward,
so `fuel` above `bytes_read` is never used up.  The result is the value returned
and the indices of `buffer` read, in order. -/
def whileLoop (buffer : Nat → Char) (bytes_read : Int) :
    Nat → Nat → List Nat → Bool × List Nat
  | 0, _, reads => (false, reads)
  | fuel + 1, buffer_index, reads =>
    if bytes_read - (buffer_index : Int) ≥ (EXIT_MSG_SZ : Int) then
      let reads := reads ++ [buffer_index]
      if buffer buffer_index == EXIT_MSG_at 0 then
        match forLoop buffer (EXIT_MSG_SZ - 1) 1 buffer_index reads with
        | (true, _, reads) => (true, reads)
        | (false, buffer_index, reads) =>
          whileLoop buffer bytes_read fuel (buffer_index + 1) reads
      else whileLoop buffer bytes_read fuel (buffer_index + 1) reads
    else (false, reads)

/-- The function `foundEndMessage` on the memory `buffer` points to, together with
the indices it reads. -/
def foundEndMessageScan (buffer : Nat → Char) (bytes_read : Int) : Bool × List Nat :=
  whileLoop buffer bytes_read (bytes_read.toNat + 1) 0 []

def foundEndMessage (buffer : Nat → Char) (bytes_read : Int) : Bool :=
  (foundEndMessageScan buffer bytes_read).1

/-- A buffer that holds `bytes` from index 0 on, with NUL behind them. -/
def bufferOf (bytes : Str) : Nat → Char :=
  fun i => bytes.getD i (Char.ofNat 0)

/-- The bytes `writeToPipe(message)` writes: `size + 1` bytes from
`message.c_str()`, which are the characters of the message and the terminating
NUL. -/
def writeToPipe (message : Str) : Str := message ++ [Char.ofNat 0]

/-- The message `handleHTTPrequest` gives to `writeToPipe` for the parsed request. -/
def readMessage (request : Str) (http_request : http_request_t) : Str :=
  "Read ".toList ++ to_string_nat request.length ++ " bytes: ".toList
    ++ http_request.to_string ++ "\n".toList

/-! ## Lemmas on `split` -/

theorem getline_nil (d : Char) : getline [] d = none := rfl

theorem getline_of_ne_nil {ss : Str} (h : ss ≠ []) (d : Char) :
    getline ss d
      = some (ss.takeWhile (fun c => c != d), (ss.dropWhile (fun c => c != d)).drop 1) := by
  simp [getline, h]

theorem rest_length_lt {ss : Str} (h : ss ≠ []) (d : Char) :
    ((ss.dropWhile (fun c => c != d)).drop 1).length < ss.length := by
  have h1 := (@List.dropWhile_sublist _ ss (fun c => c != d)).length_le
  have h2 : 0 < ss.length := List.length_pos.mpr h
  rw [List.length_drop]
  omega

theorem splitLoop_acc (fuel : Nat) : ∀ (ss : Str) (d : Char) (recurse : Bool) (res : List Str),
    splitLoop fuel ss d recurse res = res ++ splitLoop fuel ss d recurse [] := by
  induction fuel with
  | zero => intro ss d recurse res; simp [splitLoop]
  | succ n ih =>
    intro ss d recurse res
    by_cases h : ss = []
    · subst h; simp [splitLoop, getline_nil]
    · simp only [splitLoop, getline_of_ne_nil h]
      rw [ih _ _ _ (res ++ _), ih _ _ _ ([] ++ _)]
      simp

theorem splitLoop_fuel (f1 : Nat) : ∀ (f2 : Nat) (ss : Str) (d : Char) (recurse : Bool),
    ss.length < f1 → ss.length < f2 →
      splitLoop f1 ss d recurse [] = splitLoop f2 ss d recurse [] := by
  induction f1 with
  | zero => intro f2 ss d recurse h1; omega
  | succ n ih =>
    intro f2 ss d recurse h1 h2
    cases f2 with
    | zero => omega
    | succ m =>
      by_cases h : ss = []
      · subst h; simp [splitLoop, getline_nil]
      · have hlt := rest_length_lt h d
        simp only [splitLoop, getline_of_ne_nil h]
        rw [splitLoop_acc n, splitLoop_acc m]
        rw [ih m _ _ _ (by omega) (by omega)]

theorem split_nil (d : Char) (recurse : Bool) : split [] d recurse = [] := rfl

/-- One turn of the loop of `split`. -/
theorem split_step {ss : Str} (h : ss ≠ []) (d : Char) (recurse : Bool) :
    split ss d recurse
      = ss.takeWhile (fun c => c != d)
        :: split ((ss.dropWhile (fun c => c != d)).drop 1)
            (if recurse then d else Char.ofNat 0) recurse := by
  have hlt := rest_length_lt h d
  have h1 : split ss d recurse = splitLoop (ss.length + 1) ss d recurse [] := rfl
  rw [h1]
  simp only [splitLoop, getline_of_ne_nil h]
  rw [splitLoop_acc]
  rw [splitLoop_fuel ss.length _ _ _ _ (by omega) (Nat.lt_succ_self _)]
  rfl

theorem split_ne_nil {ss : Str} (h : ss ≠ []) (d : Char) (recurse : Bool) :
    split ss d recurse ≠ [] := by
  rw [split_step h]; simp

theorem takeWhile_ne_of_not_mem {a : Str} {d : Char} (h : d ∉ a) :
    a.takeWhile (fun c => c != d) = a := by
  induction a with
  | nil => rfl
  | cons x xs ih =>
    have hx : x ≠ d := fun e => h (e ▸ List.mem_cons_self _ _)
    have hxs : d ∉ xs := fun m => h (List.mem_cons_of_mem _ m)
    have hx1 : (x != d) = true := by simpa using hx
    rw [List.takeWhile_cons_of_pos (p := fun c => c != d) hx1, ih hxs]

theorem dropWhile_ne_of_not_mem {a : Str} {d : Char} (h : d ∉ a) :
    a.dropWhile (fun c => c != d) = [] := by
  induction a with
  | nil => rfl
  | cons x xs ih =>
    have hx : x ≠ d := fun e => h (e ▸ List.mem_cons_self _ _)
    have hxs : d ∉ xs := fun m => h (List.mem_cons_of_mem _ m)
    have hx1 : (x != d) = true := by simpa using hx
    rw [List.dropWhile_cons_of_pos (p := fun c => c != d) hx1, ih hxs]

theorem takeWhile_ne_append {a : Str} {d : Char} (b : Str) (h : d ∉ a) :
    (a ++ d :: b).takeWhile (fun c => c != d) = a := by
  induction a with
  | nil => simp [List.takeWhile]
  | cons x xs ih =>
    have hx : x ≠ d := fun e => h (e ▸ List.mem_cons_self _ _)
    have hxs : d ∉ xs := fun m => h (List.mem_cons_of_mem _ m)
    have hx1 : (x != d) = true := by simpa using hx
    rw [List.cons_append, List.takeWhile_cons_of_pos (p := fun c => c != d) hx1, ih hxs]

theorem dropWhile_ne_append {a : Str} {d : Char} (b : Str) (h : d ∉ a) :
    (a ++ d :: b).dropWhile (fun c => c != d) = d :: b := by
  induction a with
  | nil => simp [List.dropWhile]
  | cons x xs ih =>
    have hx : x ≠ d := fun e => h (e ▸ List.mem_cons_self _ _)
    have hxs : d ∉ xs := fun m => h (List.mem_cons_of_mem _ m)
    have hx1 : (x != d) = true := by simpa using hx
    rw [List.cons_append, List.dropWhile_cons_of_pos (p := fun c => c != d) hx1, ih hxs]

/-- A string without the delimiter is one piece. -/
theorem split_no_delim {s : Str} {d : Char} (hs : s ≠ []) (h : d ∉ s) (recurse : Bool) :
    split s d recurse = [s] := by
  rw [split_step hs, takeWhile_ne_of_not_mem h, dropWhile_ne_of_not_mem h]
  simp [split_nil]

/-- The first piece ends at the first delimiter, and the loop goes on behind it. -/
theorem split_at_delim {a : Str} {d : Char} (b : Str) (h : d ∉ a) (recurse : Bool) :
    split (a ++ d :: b) d recurse
      = a :: split b (if recurse then d else Char.ofNat 0) recurse := by
  rw [split_step (by simp), takeWhile_ne_append b h, dropWhile_ne_append b h]
  simp

/-- Every string is cut at its first delimiter, or has none. -/
theorem exists_first_delim (s : Str) (d : Char) :
    d ∉ s ∨ ∃ a b, s = a ++ d :: b ∧ d ∉ a := by
  induction s with
  | nil => left; simp
  | cons x xs ih =>
    by_cases hx : x = d
    · right; exact ⟨[], xs, by simp [hx], by simp⟩
    · rcases ih with h | ⟨a, b, hab, ha⟩
      · left; simp [h, Ne.symm hx]
      · right; exact ⟨x :: a, b, by simp [hab], by simp [ha, Ne.symm hx]⟩

/-- The last piece of `split` on a string that ends in a delimiter-free, non-empty
text behind a delimiter is that text. -/
theorem split_getLast (d : Char) {ext : Str} (hext : ext ≠ []) (hd : d ∉ ext) :
    ∀ (n : Nat) (pre : Str), pre.length ≤ n →
      (split (pre ++ d :: ext) d true).getLast? = some ext := by
  intro n
  induction n with
  | zero =>
    intro pre hlen
    have : pre = [] := List.length_eq_zero.mp (by omega)
    subst this
    have h := split_at_delim (a := []) (d := d) ext (by simp) true
    simp only [List.nil_append, if_true] at h ⊢
    rw [h, split_no_delim hext hd]; rfl
  | succ n ih =>
    intro pre hlen
    rcases exists_first_delim pre d with h | ⟨a, b, hab, ha⟩
    · rw [split_at_delim ext h]
      simp only [if_true]
      rw [split_no_delim hext hd]; rfl
    · subst hab
      have e : (a ++ d :: b) ++ d :: ext = a ++ d :: (b ++ d :: ext) := by simp
      rw [e, split_at_delim _ ha]
      simp only [if_true]
      have hb : b.length ≤ n := by simp at hlen; omega
      have := ih b hb
      rw [List.getLast?_cons, this]; rfl

/-- A final delimiter behind a text that does not itself end in the delimiter adds
no piece. -/
theorem split_snoc_delim (d : Char) : ∀ (n : Nat) (s : Str), s.length ≤ n → s ≠ [] →
    s.getLast? ≠ some d → split (s ++ [d]) d true = split s d true := by
  intro n
  induction n with
  | zero =>
    intro s hlen hne
    exact absurd (List.length_eq_zero.mp (by omega)) hne
  | succ n ih =>
    intro s hlen hne hlast
    rcases exists_first_delim s d with h | ⟨a, b, hab, ha⟩
    · rw [split_at_delim [] h, split_no_delim hne h, split_nil]
    · subst hab
      have hb : b ≠ [] := by
        intro e
        subst e
        exact hlast (by simp)
      have hbl : b.getLast? ≠ some d := by
        intro e
        apply hlast
        rw [List.getLast?_append, List.getLast?_cons, e]
        rfl
      have e : (a ++ d :: b) ++ [d] = a ++ d :: (b ++ [d]) := by simp
      rw [e, split_at_delim _ ha, split_at_delim _ ha]
      simp only [if_true]
      rw [ih b (by simp at hlen; omega) hb hbl]

/-- A text that is the delimiter alone is one empty piece. -/
theorem split_single_delim (d : Char) : split [d] d true = [[]] := by
  have h := split_at_delim (a := []) (d := d) [] (by simp) true
  simp only [List.nil_append, if_true] at h
  rw [h, split_nil]

/-- The last piece of a text that ends in two delimiters is empty. -/
theorem split_double_delim (d : Char) : ∀ (n : Nat) (w : Str), w.length ≤ n →
    (split (w ++ [d, d]) d true).getLast? = some [] := by
  intro n
  induction n with
  | zero =>
    intro w hlen
    have : w = [] := List.length_eq_zero.mp (by omega)
    subst this
    have h := split_at_delim (a := []) (d := d) [d] (by simp) true
    simp only [List.nil_append, if_true] at h ⊢
    rw [h, split_single_delim]; rfl
  | succ n ih =>
    intro w hlen
    rcases exists_first_delim w d with h | ⟨a, b, hab, ha⟩
    · rw [split_at_delim [d] h]
      simp only [if_true]
      rw [split_single_delim]; rfl
    · subst hab
      have e : (a ++ d :: b) ++ [d, d] = a ++ d :: (b ++ [d, d]) := by simp
      rw [e, split_at_delim _ ha]
      simp only [if_true]
      have hb : b.length ≤ n := by simp at hlen; omega
      rw [List.getLast?_cons, ih b hb]; rfl

/-- Every text is cut at its last delimiter, or has none. -/
theorem exists_last_delim (s : Str) (d : Char) :
    d ∉ s ∨ ∃ front ext, s = front ++ d :: ext ∧ d ∉ ext := by
  induction s with
  | nil => left; simp
  | cons x xs ih =>
    rcases ih with h | ⟨front, ext, hfe, hext⟩
    · by_cases hx : x = d
      · right; exact ⟨[], xs, by simp [hx], h⟩
      · left; simp [h, Ne.symm hx]
    · right; exact ⟨x :: front, ext, by simp [hfe], hext⟩

/-- A text without the delimiter does not end in it. -/
theorem getLast?_ne_of_not_mem {v : Str} {d : Char} (h : d ∉ v) : v.getLast? ≠ some d := by
  intro e
  exact h (List.mem_of_getLast?_eq_some e)

/-- A text whose part behind its last delimiter is not empty does not end in the
delimiter. -/
theorem getLast?_ne_of_ext {front ext : Str} {d : Char} (hne : ext ≠ []) (hd : d ∉ ext) :
    (front ++ d :: ext).getLast? ≠ some d := by
  intro e
  apply getLast?_ne_of_not_mem hd
  rcases List.eq_nil_or_concat ext with h | ⟨w, c, h⟩
  · exact absurd h hne
  · rw [List.concat_eq_append] at h
    subst h
    have e2 : front ++ d :: (w ++ [c]) = (front ++ d :: w) ++ [c] := by simp
    rw [e2, List.getLast?_concat] at e
    rw [List.getLast?_concat]
    exact e

/-- The shapes a text can have with respect to a delimiter: empty; without the
delimiter; with a non-empty text behind its last delimiter; one of these two
followed by one final delimiter; the delimiter alone; ending in two delimiters. -/
theorem text_shapes (u : Str) (d : Char) :
    u = [] ∨
    (u ≠ [] ∧ d ∉ u) ∨
    (∃ front ext, u = front ++ d :: ext ∧ ext ≠ [] ∧ d ∉ ext) ∨
    (∃ v, u = v ++ [d] ∧ v ≠ [] ∧ d ∉ v) ∨
    (∃ front ext, u = front ++ d :: (ext ++ [d]) ∧ ext ≠ [] ∧ d ∉ ext) ∨
    u = [d] ∨
    (∃ w, u = w ++ [d, d]) := by
  have hnot : ∀ t : Str, t ≠ [] → t.getLast? ≠ some d →
      d ∉ t ∨ ∃ front ext, t = front ++ d :: ext ∧ ext ≠ [] ∧ d ∉ ext := by
    intro t _ hlast
    rcases exists_last_delim t d with h | ⟨front, ext, hfe, hext⟩
    · exact Or.inl h
    · refine Or.inr ⟨front, ext, hfe, ?_, hext⟩
      intro he
      subst he
      apply hlast
      rw [hfe]
      simp
  rcases List.eq_nil_or_concat u with h | ⟨v, c, h⟩
  · exact Or.inl h
  · rw [List.concat_eq_append] at h
    subst h
    by_cases hc : c = d
    · subst hc
      rcases List.eq_nil_or_concat v with hv | ⟨w, c2, hv⟩
      · subst hv
        exact Or.inr (Or.inr (Or.inr (Or.inr (Or.inr (Or.inl rfl)))))
      · rw [List.concat_eq_append] at hv
        subst hv
        by_cases hc2 : c2 = c
        · subst hc2
          exact Or.inr (Or.inr (Or.inr (Or.inr (Or.inr (Or.inr ⟨w, by simp⟩)))))
        · rcases hnot (w ++ [c2]) (by simp) (by simp [hc2]) with h | ⟨front, ext, hfe, hne, hext⟩
          · exact Or.inr (Or.inr (Or.inr (Or.inl ⟨w ++ [c2], rfl, by simp, h⟩)))
          · refine Or.inr (Or.inr (Or.inr (Or.inr (Or.inl ⟨front, ext, ?_, hne, hext⟩))))
            rw [hfe]
            simp
    · rcases hnot (v ++ [c]) (by simp) (by simp [hc]) with h | h
      · exact Or.inr (Or.inl ⟨by simp, h⟩)
      · exact Or.inr (Or.inr (Or.inl h))

/-- The last piece of `split` at `d` on a text that is not empty, in each of the
shapes the text can have. -/
theorem split_last_piece (d : Char) {u : Str} (hu : u ≠ []) :
    ∃ piece, (split u d true).getLast? = some piece ∧
      (∀ front ext, u = front ++ d :: ext → ext ≠ [] → d ∉ ext → piece = ext) ∧
      (d ∉ u → piece = u) ∧
      (∀ v, u = v ++ [d] → v ≠ [] → d ∉ v → piece = v) ∧
      (∀ front ext, u = front ++ d :: (ext ++ [d]) → ext ≠ [] → d ∉ ext → piece = ext) ∧
      (u = [d] → piece = []) ∧
      (∀ w, u = w ++ [d, d] → piece = []) := by
  cases hl : (split u d true).getLast? with
  | none => exact absurd (List.getLast?_eq_none_iff.mp hl) (split_ne_nil hu _ _)
  | some piece =>
    refine ⟨piece, rfl, ?_, ?_, ?_, ?_, ?_, ?_⟩
    · intro front ext he hne hd
      rw [he, split_getLast d hne hd front.length front (Nat.le_refl _)] at hl
      exact (Option.some.inj hl).symm
    · intro hd
      rw [split_no_delim hu hd] at hl
      exact (Option.some.inj hl).symm
    · intro v he hv hd
      rw [he, split_snoc_delim d v.length v (Nat.le_refl _) hv (getLast?_ne_of_not_mem hd),
        split_no_delim hv hd] at hl
      exact (Option.some.inj hl).symm
    · intro front ext he hne hd
      have e : front ++ d :: (ext ++ [d]) = (front ++ d :: ext) ++ [d] := by simp
      rw [he, e, split_snoc_delim d _ _ (Nat.le_refl _) (by simp) (getLast?_ne_of_ext hne hd),
        split_getLast d hne hd front.length front (Nat.le_refl _)] at hl
      exact (Option.some.inj hl).symm
    · intro he
      rw [he, split_single_delim] at hl
      exact (Option.some.inj hl).symm
    · intro w he
      rw [he, split_double_delim d w.length w (Nat.le_refl _)] at hl
      exact (Option.some.inj hl).symm

/-! ## Lemmas on the request parser -/

theorem trim_sublist (s : Str) : (trim s).Sublist s := by
  unfold trim ltrim rtrim
  exact (List.dropWhile_sublist _).trans (List.rdropWhile_prefix _ _).sublist

/-- A line without a colon gives no header. -/
theorem headerOfLine_no_colon {line : Str} (h : ':' ∉ line) : headerOfLine line = none := by
  have h1 : ':' ∉ trim line := fun m => h ((trim_sublist line).subset m)
  unfold headerOfLine
  by_cases he : trim line = []
  · rw [he, split_nil]
  · rw [split_no_delim he h1]

/-- A line whose trimmed text ends at its first colon gives no header. -/
theorem headerOfLine_colon_last {line k : Str} (ht : trim line = k ++ [':']) (hk : ':' ∉ k) :
    headerOfLine line = none := by
  unfold headerOfLine
  rw [ht, split_at_delim [] hk, split_nil]

/-- A line whose trimmed text goes on behind its first colon gives a header: the
key is the text before that colon, the value the text behind it up to the first
NUL character, both trimmed. -/
theorem headerOfLine_colon {line k v : Str} (ht : trim line = k ++ ':' :: v) (hk : ':' ∉ k)
    (hv : v ≠ []) :
    headerOfLine line
      = some { key := trim k, value := trim (v.takeWhile (fun c => c != Char.ofNat 0)) } := by
  unfold headerOfLine
  rw [ht, split_at_delim v hk, split_step hv]
  simp

theorem parseHeadersLoop_eq (tokens : List Str) : ∀ headers : List http_header_t,
    parseHeadersLoop tokens headers = headers ++ tokens.filterMap headerOfLine := by
  induction tokens with
  | nil => intro headers; simp [parseHeadersLoop]
  | cons t ts ih =>
    intro headers
    cases h : headerOfLine t with
    | none => simp [parseHeadersLoop, h, ih]
    | some hd => simp [parseHeadersLoop, h, ih]

/-- What a successful `parseHTTPrequest` read and stored. -/
theorem parseHTTPrequest_some {request : Str} {r : http_request_t}
    (h : parseHTTPrequest request = some r) :
    ∃ line0 tok0 tok2,
      (split request '\n' true)[0]? = some line0 ∧
      (split line0 ' ' true)[0]? = some tok0 ∧
      (split line0 ' ' true)[2]? = some tok2 ∧
      cleanHttpVersion tok2 = some r.version ∧
      r.verb = httpRequestToString tok0 ∧
      r.headers = ((split request '\n' true).drop 1).filterMap headerOfLine ∧
      ((split line0 ' ' true).length = 3 → (split line0 ' ' true)[1]? = some r.uri) ∧
      ((split line0 ' ' true).length ≠ 3 → r.uri = "/".toList) := by
  unfold parseHTTPrequest at h
  cases h0 : (split request '\n' true)[0]? with
  | none => simp [h0] at h
  | some line0 =>
    simp only [h0] at h
    refine ⟨line0, ?_⟩
    cases ht0 : (split line0 ' ' true)[0]? with
    | none => simp [ht0] at h
    | some tok0 =>
      cases ht2 : (split line0 ' ' true)[2]? with
      | none => simp [ht2] at h
      | some tok2 =>
        refine ⟨tok0, tok2, rfl, rfl, rfl, ?_⟩
        by_cases h3 : (split line0 ' ' true).length = 3
        · cases ht1 : (split line0 ' ' true)[1]? with
          | none => simp [h3, ht0, ht1, ht2] at h
          | some tok1 =>
            cases hc : cleanHttpVersion tok2 with
            | none => simp [h3, ht0, ht1, ht2, hc] at h
            | some version =>
              simp [h3, ht0, ht1, ht2, hc] at h
              subst h
              simp [parseHeadersLoop_eq, h3]
        · cases hc : cleanHttpVersion tok2 with
          | none => simp [h3, ht0, ht2, hc] at h
          | some version =>
            simp [h3, ht0, ht2, hc] at h
            subst h
            simp [parseHeadersLoop_eq, h3]

/-- A request whose first line has at least three tokens, the third with three
characters left after trimming, is parsed. -/
theorem parseHTTPrequest_isSome {request line0 tok0 tok1 tok2 : Str} {more : List Str}
    (h0 : (split request '\n' true)[0]? = some line0)
    (hl : split line0 ' ' true = tok0 :: tok1 :: tok2 :: more)
    (hv : 3 ≤ (trim tok2).length) :
    ∃ r, parseHTTPrequest request = some r := by
  have hc : cleanHttpVersion tok2
      = some ((trim tok2).drop ((trim tok2).length - 3)) := by
    unfold cleanHttpVersion
    simp only
    rw [if_neg (by omega)]
  unfold parseHTTPrequest
  simp only [h0, hl]
  by_cases h3 : more = []
  · simp [h3, hc]
  · simp [h3, hc]

/-! ## Lemmas on the handlers -/

theorem to_string_int_of_nonneg {i : Int} (h : 0 ≤ i) :
    to_string_int i = to_string_nat i.toNat := by
  unfold to_string_int to_string_nat
  rw [if_neg (by omega)]

theorem ifstream_read_length {file : ifstream} {n : Nat} {t : Str}
    (h : file.read n = some t) : t.length = n := by
  unfold ifstream.read at h
  by_cases hb : (file.bad || decide (file.content.length < n)) = true
  · simp [hb] at h
  · rw [if_neg hb] at h
    simp only [Bool.or_eq_true, decide_eq_true_eq, not_or, not_lt] at hb
    cases h
    simp [hb.2]

theorem normalizeURI_ne_nil (uri : Str) : normalizeURI uri ≠ [] := by
  unfold normalizeURI
  by_cases h : uri = [] ∨ uri = "/".toList
  · rw [if_pos h]; decide
  · rw [if_neg h]; exact fun e => h (Or.inl e)

theorem getURIContentType_txt : getURIContentType ".txt".toList = some "text/plaintext".toList := by
  decide

/-- The not-found branch of `handleGETrequest`. -/
theorem handleGETrequest_not_found {fs : Str → Option ifstream} {uri : Str}
    (resp : http_response_t) (hf : fs (".".toList ++ normalizeURI uri) = none) :
    handleGETrequest fs uri resp
      = some
        { response :=
            { version := resp.version
              status_code := 404
              status_txt := "File not found".toList
              body := "GET ".toList ++ normalizeURI uri ++ " failed".toList
              headers := resp.headers ++
                [{ key := "Content-Type".toList, value := "text/plaintext".toList },
                 { key := "Content-Length".toList,
                   value := to_string_nat
                     ("GET ".toList ++ normalizeURI uri ++ " failed".toList).length }] }
          opened := ".".toList ++ normalizeURI uri
          shutdown := decide (normalizeURI uri = QUIT_SERVER) } := by
  unfold handleGETrequest
  simp only [hf, getURIContentType_txt, buildFailureHTTPresponse]
  simp
  decide

/-- The branch of `handleGETrequest` for a file that opened, with a size that is
not negative. -/
theorem handleGETrequest_found {fs : Str → Option ifstream} {uri : Str} {file : ifstream}
    (resp : http_response_t) (hf : fs (".".toList ++ normalizeURI uri) = some file)
    (hs : 0 ≤ file.tellg_end) :
    ∃ fileFormat, (split (normalizeURI uri) '.' true).getLast? = some fileFormat ∧
      handleGETrequest fs uri resp
        = some
          { response :=
              { version := resp.version
                status_code := 200
                status_txt := "OK".toList
                body := (match file.read file.tellg_end.toNat with
                  | none => resp.body
                  | some temp => temp)
                headers := resp.headers ++
                  [{ key := "Content-Type".toList, value := contentType fileFormat },
                   { key := "Content-Length".toList, value := to_string_int file.tellg_end }] }
            opened := ".".toList ++ normalizeURI uri
            shutdown := false } := by
  cases hl : (split (normalizeURI uri) '.' true).getLast? with
  | none =>
    exact absurd (List.getLast?_eq_none_iff.mp hl) (split_ne_nil (normalizeURI_ne_nil uri) _ _)
  | some fileFormat =>
    refine ⟨fileFormat, rfl, ?_⟩
    unfold handleGETrequest
    simp only [hf, getURIContentType, hl, buildSuccessfulHTTPresponse]
    rw [if_neg (by omega)]
    cases file.read file.tellg_end.toNat <;> simp <;> decide

/-- A negative size ends `handleGETrequest` without a response. -/
theorem handleGETrequest_negative {fs : Str → Option ifstream} {uri : Str} {file : ifstream}
    (resp : http_response_t) (hf : fs (".".toList ++ normalizeURI uri) = some file)
    (hs : file.tellg_end < 0) :
    handleGETrequest fs uri resp = none := by
  unfold handleGETrequest
  simp only [hf]
  cases getURIContentType (normalizeURI uri) with
  | none => rfl
  | some ct => simp [hs]

/-- The GET branch of `handleHTTPrequest`. -/
theorem handleHTTPrequest_GET {request : Str} {q : http_request_t}
    (fs : Str → Option ifstream)
    (hp : parseHTTPrequest request = some q) (hv : q.verb = HttpRequestType.GET) :
    handleHTTPrequest fs request
      = (handleGETrequest fs q.uri http_response_t.fresh).map (fun out =>
          { response := out.response
            piped := ["Read ".toList ++ to_string_nat request.length ++ " bytes: ".toList
              ++ q.to_string ++ "\n".toList]
            opened := [out.opened]
            shutdown := out.shutdown }) := by
  unfold handleHTTPrequest
  simp only [hp, hv]
  cases handleGETrequest fs q.uri http_response_t.fresh <;> rfl

/-- The branch of `handleHTTPrequest` for every other verb. -/
theorem handleHTTPrequest_other {request : Str} {q : http_request_t}
    (fs : Str → Option ifstream)
    (hp : parseHTTPrequest request = some q) (hv : q.verb ≠ HttpRequestType.GET) :
    handleHTTPrequest fs request
      = some
        { response :=
            { version := "1.0".toList
              status_code := 404
              status_txt := "Unknown HTTP request ".toList ++ stringToHttpRequest q.verb
                ++ "\n".toList
              body := []
              headers := [] }
          piped := ["Read ".toList ++ to_string_nat request.length ++ " bytes: ".toList
              ++ q.to_string ++ "\n".toList,
            "Unknown HTTP request ".toList ++ stringToHttpRequest q.verb ++ "\n".toList]
          opened := []
          shutdown := false } := by
  unfold handleHTTPrequest
  simp only [hp]
  cases hq : q.verb with
  | GET => exact absurd hq hv
  | PUT => rfl
  | DELETE => rfl
  | POST => rfl

/-- A token outside the verb table is read as `GET`. -/
theorem httpRequestToString_unrecognized {token : Str}
    (h1 : token ≠ "GET".toList) (h2 : token ≠ "PUT".toList) (h3 : token ≠ "DELETE".toList)
    (h4 : token ≠ "POST".toList) :
    httpRequestToString token = HttpRequestType.GET := by
  have e1 : (token == "GET".toList) = false := beq_false_of_ne h1
  have e2 : (token == "PUT".toList) = false := beq_false_of_ne h2
  have e3 : (token == "DELETE".toList) = false := beq_false_of_ne h3
  have e4 : (token == "POST".toList) = false := beq_false_of_ne h4
  unfold httpRequestToString mapIndex httpRequestToString_entries
  simp only [List.lookup, e1, e2, e3, e4]

theorem responseHeadersLoop_eq (headers : List http_header_t) : ∀ sso : Str,
    responseHeadersLoop headers sso
      = sso ++ (headers.map
          (fun h => h.key ++ ": ".toList ++ h.value ++ "\r\n".toList)).flatten := by
  induction headers with
  | nil => intro sso; simp [responseHeadersLoop]
  | cons h hs ih =>
    intro sso
    simp [responseHeadersLoop, ih, http_header_t.to_string]

theorem length_filterMap_headerOfLine (lines : List Str) :
    (lines.filterMap headerOfLine).length
      = lines.countP (fun l => (headerOfLine l).isSome) := by
  induction lines with
  | nil => rfl
  | cons l ls ih =>
    cases h : headerOfLine l with
    | none => simp [List.filterMap_cons, h, ih]
    | some hd => simp [List.filterMap_cons, h, ih]

/-! ## The claims -/

/-- C1, evaluated where the code departs from it: the request line `FOO /x HTTP/1.1`
carries a verb token that the verb table does not hold.  The table lookup gives
`GET` for it, so `handleHTTPrequest` goes through `handleGETrequest`: the file
`./x` is opened, and the response is the file-not-found one, with a body, instead
of the unknown-verb one. -/
theorem unrecognized_verb_is_served_as_GET :
    httpRequestToString "FOO".toList = HttpRequestType.GET ∧
    (handleHTTPrequest (fun _ => none) "FOO /x HTTP/1.1".toList).map
        (fun h => (h.response.status_txt, h.response.body, h.opened))
      = some ("File not found".toList, "GET /x failed".toList, ["./x".toList]) := by
  decide

/-- C2 fails as stated: for the request `GET / HTTP/1.1` the parsed URI is `/`, no
file opens, and the body names the default document, not the requested URI. -/
theorem not_found_body_names_default_document :
    (parseHTTPrequest "GET / HTTP/1.1".toList).map (fun q => (q.verb, q.uri))
      = some (HttpRequestType.GET, "/".toList) ∧
    (handleHTTPrequest (fun _ => none) "GET / HTTP/1.1".toList).map (fun h => h.response.body)
      = some "GET /index.html failed".toList ∧
    "GET /index.html failed".toList ≠ "GET ".toList ++ "/".toList ++ " failed".toList := by
  decide

/-- C2, amended: for every GET request whose URI, after the default document has
taken the place of an empty URI or of `/`, does not open as a file, the response
has status code 404, the body `GET <uri> failed` for that substituted URI, and
exactly two headers: Content-Type with the table entry for `txt`, which is
`text/plaintext`, and Content-Length with the decimal length of the body. -/
theorem not_found_response (fs : Str → Option ifstream) (request : Str) (q : http_request_t)
    (hp : parseHTTPrequest request = some q) (hv : q.verb = HttpRequestType.GET)
    (hf : fs (".".toList ++ normalizeURI q.uri) = none) :
    ∃ h, handleHTTPrequest fs request = some h ∧
      h.response.status_code = 404 ∧
      h.response.body = "GET ".toList ++ normalizeURI q.uri ++ " failed".toList ∧
      h.response.headers =
        [{ key := "Content-Type".toList, value := contentType "txt".toList },
         { key := "Content-Length".toList, value := to_string_nat h.response.body.length }] ∧
      contentType "txt".toList = "text/plaintext".toList := by
  rw [handleHTTPrequest_GET fs hp hv, handleGETrequest_not_found _ hf]
  exact ⟨_, rfl, rfl, rfl, rfl, rfl⟩

theorem not_found_response_witness :
    parseHTTPrequest "GET /nofile.png HTTP/1.1".toList
      = some { verb := HttpRequestType.GET, version := "1.1".toList,
               uri := "/nofile.png".toList, headers := [] } ∧
    ∃ h, handleHTTPrequest (fun _ => none) "GET /nofile.png HTTP/1.1".toList = some h ∧
      h.response.status_code = 404 ∧
      h.response.body = "GET /nofile.png failed".toList ∧
      h.response.headers =
        [{ key := "Content-Type".toList, value := contentType "txt".toList },
         { key := "Content-Length".toList, value := to_string_nat h.response.body.length }] ∧
      contentType "txt".toList = "text/plaintext".toList :=
  ⟨by decide,
   not_found_response (fun _ => none) "GET /nofile.png HTTP/1.1".toList
     { verb := HttpRequestType.GET, version := "1.1".toList,
       uri := "/nofile.png".toList, headers := [] }
     (by decide) rfl rfl⟩

/-- C3 fails as stated: the file behind `GET /a.txt` opens and measures 5 bytes, but
the stream delivers only 3, so the read fails: the response is 200 with
Content-Length 5 while no body byte is served.  When the measured size is
negative, as `tellg()` gives after a failed seek, no response comes out.  And for
`GET /a.txt.` the text behind the last `.` of the URI is empty, with the empty table
entry, yet the Content-Type is `text/plaintext`. -/
theorem found_content_length_exceeds_body :
    (handleHTTPrequest (fun _ => some { tellg_end := 5, content := "abc".toList, bad := false })
        "GET /a.txt HTTP/1.1".toList).map
        (fun h => (h.response.status_code, h.response.body, h.response.headers))
      = some (200, [],
          [{ key := "Content-Type".toList, value := "text/plaintext".toList },
           { key := "Content-Length".toList, value := "5".toList }]) ∧
    to_string_nat ([] : Str).length = "0".toList ∧
    (handleHTTPrequest (fun _ => some { tellg_end := -1, content := [], bad := true })
        "GET /a.txt HTTP/1.1".toList).isNone = true ∧
    (handleHTTPrequest (fun _ => some { tellg_end := 2, content := "hi".toList, bad := false })
        "GET /a.txt. HTTP/1.1".toList).map
        (fun h => (h.response.status_code, h.response.body, h.response.headers))
      = some (200, "hi".toList,
          [{ key := "Content-Type".toList, value := "text/plaintext".toList },
           { key := "Content-Length".toList, value := "2".toList }]) ∧
    contentType [] = [] := by
  decide

/-- C3, amended: for every GET request whose URI, after the default-document
substitution, opens as a file with a measured size that is not negative, the
response has status code 200 and status text `OK` and a Content-Type header with
the table entry for the last piece of the URI cut at `.`.  That piece is the text
behind the last `.` of the URI when this text is not empty, and the whole URI when
it has no `.`; for a URI made of such a URI and one final `.` it is the piece of the
URI without the final `.`; for the URI `.` and for a URI ending in two `.` it is
empty; every URI has one of these shapes.  When the read delivers the measured
number of bytes, they are the body and the Content-Length header is the decimal
count of the body bytes. -/
theorem found_response (fs : Str → Option ifstream) (request : Str) (q : http_request_t)
    (file : ifstream)
    (hp : parseHTTPrequest request = some q) (hv : q.verb = HttpRequestType.GET)
    (hf : fs (".".toList ++ normalizeURI q.uri) = some file) (hs : 0 ≤ file.tellg_end) :
    ∃ h fileFormat, handleHTTPrequest fs request = some h ∧
      h.response.status_code = 200 ∧
      h.response.status_txt = "OK".toList ∧
      (split (normalizeURI q.uri) '.' true).getLast? = some fileFormat ∧
      (∀ front ext, normalizeURI q.uri = front ++ '.' :: ext → ext ≠ [] → '.' ∉ ext →
        fileFormat = ext) ∧
      ({ key := "Content-Type".toList, value := contentType fileFormat } : http_header_t)
        ∈ h.response.headers ∧
      (∀ temp, file.read file.tellg_end.toNat = some temp →
        h.response.body = temp ∧
        ({ key := "Content-Length".toList, value := to_string_nat h.response.body.length }
          : http_header_t) ∈ h.response.headers) ∧
      ('.' ∉ normalizeURI q.uri → fileFormat = normalizeURI q.uri) ∧
      (∀ v, normalizeURI q.uri = v ++ ['.'] → v ≠ [] → '.' ∉ v → fileFormat = v) ∧
      (∀ front ext, normalizeURI q.uri = front ++ '.' :: (ext ++ ['.']) → ext ≠ [] →
        '.' ∉ ext → fileFormat = ext) ∧
      (normalizeURI q.uri = ['.'] → fileFormat = []) ∧
      (∀ w, normalizeURI q.uri = w ++ ['.', '.'] → fileFormat = []) ∧
      ('.' ∉ normalizeURI q.uri ∨
        (∃ front ext, normalizeURI q.uri = front ++ '.' :: ext ∧ ext ≠ [] ∧ '.' ∉ ext) ∨
        (∃ v, normalizeURI q.uri = v ++ ['.'] ∧ v ≠ [] ∧ '.' ∉ v) ∨
        (∃ front ext, normalizeURI q.uri = front ++ '.' :: (ext ++ ['.']) ∧ ext ≠ [] ∧
          '.' ∉ ext) ∨
        normalizeURI q.uri = ['.'] ∨
        (∃ w, normalizeURI q.uri = w ++ ['.', '.'])) := by
  obtain ⟨fileFormat, hlast, hget⟩ := handleGETrequest_found http_response_t.fresh hf hs
  obtain ⟨piece, hpiece, h1, h2, h3, h4, h5, h6⟩ :=
    split_last_piece '.' (normalizeURI_ne_nil q.uri)
  have e : piece = fileFormat := Option.some.inj (hpiece.symm.trans hlast)
  subst e
  rw [handleHTTPrequest_GET fs hp hv, hget]
  refine ⟨_, piece, rfl, rfl, rfl, hlast, h1, ?_, ?_, h2, h3, h4, h5, h6, ?_⟩
  · simp [http_response_t.fresh]
  · intro temp ht
    have hl := ifstream_read_length ht
    simp only [ht, hl, http_response_t.fresh, List.nil_append]
    rw [to_string_int_of_nonneg hs]
    simp
  · rcases text_shapes (normalizeURI q.uri) '.' with hnil | hnodot | hrest
    · exact absurd hnil (normalizeURI_ne_nil q.uri)
    · exact Or.inl hnodot.2
    · exact Or.inr hrest

theorem found_response_witness :
    parseHTTPrequest "GET /a.css HTTP/1.1".toList
      = some { verb := HttpRequestType.GET, version := "1.1".toList,
               uri := "/a.css".toList, headers := [] } ∧
    ∃ h fileFormat,
      handleHTTPrequest (fun _ => some { tellg_end := 3, content := "abc".toList, bad := false })
        "GET /a.css HTTP/1.1".toList = some h ∧
      h.response.status_code = 200 ∧
      h.response.status_txt = "OK".toList ∧
      (split "/a.css".toList '.' true).getLast? = some fileFormat ∧
      (∀ front ext, "/a.css".toList = front ++ '.' :: ext → ext ≠ [] → '.' ∉ ext →
        fileFormat = ext) ∧
      ({ key := "Content-Type".toList, value := contentType fileFormat } : http_header_t)
        ∈ h.response.headers ∧
      (∀ temp, some "abc".toList = some temp →
        h.response.body = temp ∧
        ({ key := "Content-Length".toList, value := to_string_nat h.response.body.length }
          : http_header_t) ∈ h.response.headers) ∧
      ('.' ∉ "/a.css".toList → fileFormat = "/a.css".toList) ∧
      (∀ v, "/a.css".toList = v ++ ['.'] → v ≠ [] → '.' ∉ v → fileFormat = v) ∧
      (∀ front ext, "/a.css".toList = front ++ '.' :: (ext ++ ['.']) → ext ≠ [] →
        '.' ∉ ext → fileFormat = ext) ∧
      ("/a.css".toList = ['.'] → fileFormat = []) ∧
      (∀ w, "/a.css".toList = w ++ ['.', '.'] → fileFormat = []) ∧
      ('.' ∉ "/a.css".toList ∨
        (∃ front ext, "/a.css".toList = front ++ '.' :: ext ∧ ext ≠ [] ∧ '.' ∉ ext) ∨
        (∃ v, "/a.css".toList = v ++ ['.'] ∧ v ≠ [] ∧ '.' ∉ v) ∨
        (∃ front ext, "/a.css".toList = front ++ '.' :: (ext ++ ['.']) ∧ ext ≠ [] ∧
          '.' ∉ ext) ∨
        "/a.css".toList = ['.'] ∨
        (∃ w, "/a.css".toList = w ++ ['.', '.'])) :=
  ⟨by decide,
   found_response (fun _ => some { tellg_end := 3, content := "abc".toList, bad := false })
     "GET /a.css HTTP/1.1".toList
     { verb := HttpRequestType.GET, version := "1.1".toList,
       uri := "/a.css".toList, headers := [] }
     { tellg_end := 3, content := "abc".toList, bad := false }
     (by decide) rfl rfl (by decide)⟩

/-- C4: for every response `handleHTTPrequest` returns, whatever the request text and
whatever the file system answers (a failed or short read included), a body that is
not empty comes with a Content-Type header and with a Content-Length header whose
value is the decimal length of the body. -/
theorem body_has_type_and_length (fs : Str → Option ifstream) (request : Str) (h : Handled)
    (hh : handleHTTPrequest fs request = some h) (hb : h.response.body ≠ []) :
    (∃ v, ({ key := "Content-Type".toList, value := v } : http_header_t) ∈ h.response.headers) ∧
    ({ key := "Content-Length".toList, value := to_string_nat h.response.body.length }
      : http_header_t) ∈ h.response.headers := by
  cases hp : parseHTTPrequest request with
  | none => simp [handleHTTPrequest, hp] at hh
  | some q =>
    by_cases hv : q.verb = HttpRequestType.GET
    · rw [handleHTTPrequest_GET fs hp hv] at hh
      cases hf : fs (".".toList ++ normalizeURI q.uri) with
      | none =>
        rw [handleGETrequest_not_found _ hf] at hh
        cases hh
        exact ⟨⟨"text/plaintext".toList, by simp [http_response_t.fresh]⟩,
          by simp [http_response_t.fresh]⟩
      | some file =>
        by_cases hs : 0 ≤ file.tellg_end
        · obtain ⟨fileFormat, _, hget⟩ := handleGETrequest_found http_response_t.fresh hf hs
          rw [hget] at hh
          cases hh
          cases hr : file.read file.tellg_end.toNat with
          | none => simp [hr, http_response_t.fresh] at hb
          | some temp =>
            have hl := ifstream_read_length hr
            refine ⟨⟨contentType fileFormat, by simp [http_response_t.fresh]⟩, ?_⟩
            simp only [hr, hl, http_response_t.fresh, List.nil_append]
            rw [to_string_int_of_nonneg hs]
            simp
        · rw [handleGETrequest_negative _ hf (by omega)] at hh
          simp at hh
    · rw [handleHTTPrequest_other fs hp hv] at hh
      cases hh
      exact absurd rfl hb

theorem body_has_type_and_length_witness :
    handleHTTPrequest (fun _ => some { tellg_end := 3, content := "abcd".toList, bad := false })
        "GET /a.js HTTP/1.0".toList
      = some
        { response :=
            { version := "1.0".toList, status_code := 200, status_txt := "OK".toList,
              body := "abc".toList,
              headers := [{ key := "Content-Type".toList, value := "text/javascript".toList },
                          { key := "Content-Length".toList, value := "3".toList }] }
          piped := ["Read 18 bytes: GET /a.js version 1.0\n".toList]
          opened := ["./a.js".toList]
          shutdown := false } ∧
    "abc".toList ≠ [] ∧
    (∃ v, ({ key := "Content-Type".toList, value := v } : http_header_t)
        ∈ [({ key := "Content-Type".toList, value := "text/javascript".toList } : http_header_t),
           { key := "Content-Length".toList, value := "3".toList }]) ∧
    ({ key := "Content-Length".toList, value := to_string_nat "abc".toList.length }
      : http_header_t)
        ∈ [({ key := "Content-Type".toList, value := "text/javascript".toList } : http_header_t),
           { key := "Content-Length".toList, value := "3".toList }] :=
  ⟨rfl, by decide,
   body_has_type_and_length
     (fun _ => some { tellg_end := 3, content := "abcd".toList, bad := false })
     "GET /a.js HTTP/1.0".toList
     { response :=
         { version := "1.0".toList, status_code := 200, status_txt := "OK".toList,
           body := "abc".toList,
           headers := [{ key := "Content-Type".toList, value := "text/javascript".toList },
                       { key := "Content-Length".toList, value := "3".toList }] }
       piped := ["Read 18 bytes: GET /a.js version 1.0\n".toList]
       opened := ["./a.js".toList]
       shutdown := false }
     rfl (by decide)⟩

/-- C5: for every response value, `to_string()` is `HTTP/`, the version, a space, the
decimal status code, a space, the status text and CRLF, then `key: value` and CRLF
for each header in stored order, then one more CRLF; the body has no part in it. -/
theorem response_to_string_wire_format (r : http_response_t) :
    r.to_string
      = "HTTP/".toList ++ r.version ++ " ".toList ++ to_string_int r.status_code ++ " ".toList
          ++ r.status_txt ++ "\r\n".toList
          ++ (r.headers.map
              (fun h => h.key ++ ": ".toList ++ h.value ++ "\r\n".toList)).flatten
          ++ "\r\n".toList ∧
    ∀ body : Str, ({ r with body := body } : http_response_t).to_string = r.to_string := by
  constructor
  · unfold http_response_t.to_string
    rw [responseHeadersLoop_eq]
  · intro body
    rfl

/-- C6, evaluated where the code departs from it: the first line of the request
`GET /index.html` splits into two tokens; `parseHTTPrequest` takes the branch that
sets the URI to `/` and then reads `requestLine[2]` past the end of the vector, so
no parsed request comes out. -/
theorem two_token_request_line_is_not_parsed :
    split "GET /index.html".toList ' ' true = ["GET".toList, "/index.html".toList] ∧
    parseHTTPrequest "GET /index.html".toList = none := by
  decide

/-- C7 fails as stated: the line `Key:` holds a colon and records no header, and the
line `K:a`, NUL, `b` records the value `a`, not the whole text behind the colon. -/
theorem colon_line_without_header_or_cut_at_nul :
    ':' ∈ "Key:".toList ∧
    (parseHTTPrequest "GET / HTTP/1.1\nKey:".toList).map (fun q => q.headers) = some [] ∧
    (parseHTTPrequest ("GET / HTTP/1.1\nK:a".toList ++ [Char.ofNat 0, 'b'])).map
        (fun q => q.headers)
      = some [{ key := "K".toList, value := "a".toList }] ∧
    trim ("a".toList ++ [Char.ofNat 0, 'b']) ≠ "a".toList := by
  decide

/-- C7, amended: for every line after the request line whose whitespace-trimmed text
has at least one character behind its first colon, `parseHTTPrequest` records a
header whose key is the whitespace-trimmed text before the first colon and whose
value is the whitespace-trimmed text between the first colon and the first NUL
character behind it, later colons kept inside; when no NUL follows the colon the
value is the whitespace-trimmed text behind the first colon. -/
theorem header_of_colon_line (request : Str) (q : http_request_t) (line k v : Str)
    (hp : parseHTTPrequest request = some q)
    (hl : line ∈ (split request '\n' true).drop 1)
    (ht : trim line = k ++ ':' :: v) (hk : ':' ∉ k) (hv : v ≠ []) :
    ({ key := trim k, value := trim (v.takeWhile (fun c => c != Char.ofNat 0)) }
      : http_header_t) ∈ q.headers ∧
    (Char.ofNat 0 ∉ v → ({ key := trim k, value := trim v } : http_header_t) ∈ q.headers) := by
  obtain ⟨_, _, _, _, _, _, _, _, hhead, _, _⟩ := parseHTTPrequest_some hp
  have hmem : ({ key := trim k, value := trim (v.takeWhile (fun c => c != Char.ofNat 0)) }
      : http_header_t) ∈ q.headers := by
    rw [hhead, List.mem_filterMap]
    exact ⟨line, hl, headerOfLine_colon ht hk hv⟩
  refine ⟨hmem, fun h0 => ?_⟩
  rw [takeWhile_ne_of_not_mem h0] at hmem
  exact hmem

theorem header_of_colon_line_witness :
    parseHTTPrequest "GET / HTTP/1.1\r\nKey:   value with spaces  \r\nA: b:c\r\n".toList
      = some { verb := HttpRequestType.GET, version := "1.1".toList, uri := "/".toList,
               headers := [{ key := "Key".toList, value := "value with spaces".toList },
                           { key := "A".toList, value := "b:c".toList }] } ∧
    "Key:   value with spaces  \r".toList
      ∈ (split "GET / HTTP/1.1\r\nKey:   value with spaces  \r\nA: b:c\r\n".toList
          '\n' true).drop 1 ∧
    trim "Key:   value with spaces  \r".toList
      = "Key".toList ++ ':' :: "   value with spaces".toList ∧
    ':' ∉ "Key".toList ∧
    "   value with spaces".toList ≠ [] ∧
    ({ key := "Key".toList, value := "value with spaces".toList } : http_header_t)
      ∈ [({ key := "Key".toList, value := "value with spaces".toList } : http_header_t),
         { key := "A".toList, value := "b:c".toList }] :=
  ⟨by decide, by decide, by decide, by decide, by decide,
   (header_of_colon_line
      "GET / HTTP/1.1\r\nKey:   value with spaces  \r\nA: b:c\r\n".toList
      { verb := HttpRequestType.GET, version := "1.1".toList, uri := "/".toList,
        headers := [{ key := "Key".toList, value := "value with spaces".toList },
                    { key := "A".toList, value := "b:c".toList }] }
      "Key:   value with spaces  \r".toList "Key".toList "   value with spaces".toList
      (by decide) (by decide) (by decide) (by decide) (by decide)).1⟩

/-- C8: for every version token whose whitespace-trimmed text has at least three
characters, `cleanHttpVersion` returns exactly the last three characters of the
trimmed token. -/
theorem cleanHttpVersion_last_three (httpVersion : Str) (h : 3 ≤ (trim httpVersion).length) :
    ∃ front version, cleanHttpVersion httpVersion = some version ∧
      version.length = 3 ∧ trim httpVersion = front ++ version := by
  refine ⟨(trim httpVersion).take ((trim httpVersion).length - 3),
    (trim httpVersion).drop ((trim httpVersion).length - 3), ?_, ?_, ?_⟩
  · unfold cleanHttpVersion
    simp only
    rw [if_neg (by omega)]
  · rw [List.length_drop]; omega
  · exact (List.take_append_drop _ _).symm

theorem cleanHttpVersion_last_three_witness :
    (3 ≤ (trim "HTTP/1.1\r".toList).length ∧
      ∃ front version, cleanHttpVersion "HTTP/1.1\r".toList = some version ∧
        version.length = 3 ∧ trim "HTTP/1.1\r".toList = front ++ version) ∧
    cleanHttpVersion "HTTP/1.1".toList = some "1.1".toList ∧
    cleanHttpVersion "HTTP/1.1\r".toList = some "1.1".toList ∧
    cleanHttpVersion "1.0".toList = some "1.0".toList :=
  ⟨⟨by decide, cleanHttpVersion_last_three "HTTP/1.1\r".toList (by decide)⟩,
   by decide, by decide, by decide⟩

/-- C9 fails as stated: the request line `GET  HTTP/1.1`, with two spaces, splits into
three tokens of which the second is empty, and the parsed URI is the empty
string. -/
theorem empty_uri_is_parsed :
    split "GET  HTTP/1.1".toList ' ' true = ["GET".toList, [], "HTTP/1.1".toList] ∧
    parseHTTPrequest "GET  HTTP/1.1".toList
      = some { verb := HttpRequestType.GET, version := "1.1".toList, uri := [],
               headers := [] } := by
  decide

/-- C9, amended: for every request text that `parseHTTPrequest` parses, the URI of the
result is empty exactly when the first line splits on single spaces into three
tokens of which the second is empty; in every other case it is not empty. -/
theorem uri_empty_iff (request : Str) (q : http_request_t)
    (hp : parseHTTPrequest request = some q) :
    q.uri = [] ↔
      ∃ line0 a c, (split request '\n' true)[0]? = some line0 ∧
        split line0 ' ' true = [a, [], c] := by
  obtain ⟨line0, tok0, tok2, h0, _, _, _, _, _, h3, hn3⟩ := parseHTTPrequest_some hp
  constructor
  · intro hu
    by_cases hlen : (split line0 ' ' true).length = 3
    · have h1 := h3 hlen
      rw [hu] at h1
      refine ⟨line0, ?_⟩
      match hs : split line0 ' ' true, hlen, h1 with
      | [a, b, c], _, h1 =>
        simp at h1
        exact ⟨a, c, h0, by rw [h1]⟩
    · have := hn3 hlen
      rw [hu] at this
      exact absurd this (by decide)
  · rintro ⟨line0', a, c, h0', hs⟩
    have e : line0' = line0 := Option.some.inj (h0'.symm.trans h0)
    subst e
    have h1 := h3 (by rw [hs]; rfl)
    rw [hs] at h1
    exact (Option.some.inj h1).symm

theorem uri_empty_iff_witness :
    parseHTTPrequest "GET /a HTTP/1.1".toList
      = some { verb := HttpRequestType.GET, version := "1.1".toList, uri := "/a".toList,
               headers := [] } ∧
    ("/a".toList = [] ↔
      ∃ line0 a c, (split "GET /a HTTP/1.1".toList '\n' true)[0]? = some line0 ∧
        split line0 ' ' true = [a, [], c]) :=
  ⟨by decide,
   uri_empty_iff "GET /a HTTP/1.1".toList
     { verb := HttpRequestType.GET, version := "1.1".toList, uri := "/a".toList,
       headers := [] }
     (by decide)⟩

/-- C10: for every request text that `parseHTTPrequest` parses, the header list is the
list of the lines after the first, taken in their order, each line giving at most
one header and a line without a colon giving none; nothing is merged, so the list
has one entry for each line that gives a header, repeated keys included. -/
theorem headers_follow_lines (request : Str) (q : http_request_t)
    (hp : parseHTTPrequest request = some q) :
    q.headers = ((split request '\n' true).drop 1).filterMap headerOfLine ∧
    (∀ line, ':' ∉ line → headerOfLine line = none) ∧
    q.headers.length
      = ((split request '\n' true).drop 1).countP (fun l => (headerOfLine l).isSome) := by
  obtain ⟨_, _, _, _, _, _, _, _, hhead, _, _⟩ := parseHTTPrequest_some hp
  refine ⟨hhead, fun line h => headerOfLine_no_colon h, ?_⟩
  rw [hhead, length_filterMap_headerOfLine]

theorem headers_follow_lines_witness :
    parseHTTPrequest "GET / HTTP/1.1\nB: 1\nno colon here\nA: 2\nB: 1\n".toList
      = some { verb := HttpRequestType.GET, version := "1.1".toList, uri := "/".toList,
               headers := [{ key := "B".toList, value := "1".toList },
                           { key := "A".toList, value := "2".toList },
                           { key := "B".toList, value := "1".toList }] } ∧
    ([{ key := "B".toList, value := "1".toList },
      { key := "A".toList, value := "2".toList },
      { key := "B".toList, value := "1".toList }] : List http_header_t)
      = ((split "GET / HTTP/1.1\nB: 1\nno colon here\nA: 2\nB: 1\n".toList '\n' true).drop 1
          ).filterMap headerOfLine ∧
    (∀ line, ':' ∉ line → headerOfLine line = none) ∧
    ([{ key := "B".toList, value := "1".toList },
      { key := "A".toList, value := "2".toList },
      { key := "B".toList, value := "1".toList }] : List http_header_t).length
      = ((split "GET / HTTP/1.1\nB: 1\nno colon here\nA: 2\nB: 1\n".toList '\n' true).drop 1
          ).countP (fun l => (headerOfLine l).isSome) :=
  ⟨by decide,
   headers_follow_lines "GET / HTTP/1.1\nB: 1\nno colon here\nA: 2\nB: 1\n".toList
     { verb := HttpRequestType.GET, version := "1.1".toList, uri := "/".toList,
       headers := [{ key := "B".toList, value := "1".toList },
                   { key := "A".toList, value := "2".toList },
                   { key := "B".toList, value := "1".toList }] }
     (by decide)⟩


/-! ## Lemmas on `foundEndMessage` -/

/-- What the `for` loop of `foundEndMessage` does, entered at `i` with the turns up
to `EXIT_MSG_SZ` left: where it stops, what it reads, what it has compared equal,
and when it reaches `return true`. -/
theorem forLoop_spec (buffer : Nat → Char) (n : Nat) : ∀ (i bi : Nat) (reads : List Nat),
    i + n = EXIT_MSG_SZ →
    bi ≤ (forLoop buffer n i bi reads).2.1 ∧
    (forLoop buffer n i bi reads).2.1 ≤ bi + n ∧
    (0 < n → bi < (forLoop buffer n i bi reads).2.1) ∧
    (∀ x ∈ (forLoop buffer n i bi reads).2.2, x ∈ reads ∨ (bi < x ∧ x ≤ bi + n)) ∧
    (∀ x, bi < x → x < (forLoop buffer n i bi reads).2.1 →
      buffer x = EXIT_MSG_at (i + (x - bi - 1))) ∧
    ((forLoop buffer n i bi reads).1 = true →
      ∀ k, k < n → buffer (bi + 1 + k) = EXIT_MSG_at (i + k)) ∧
    ((∀ k, k < n → buffer (bi + 1 + k) = EXIT_MSG_at (i + k)) → 0 < n →
      (forLoop buffer n i bi reads).1 = true) := by
  induction n with
  | zero =>
    intro i bi reads _
    refine ⟨Nat.le_refl _, Nat.le_refl _, fun h => absurd h (by omega), fun x hx => Or.inl hx,
      fun x h1 h2 => ?_, fun h => ?_, fun _ h => absurd h (by omega)⟩
    · have h2b : x < bi := h2
      omega
    · exact absurd h (by simp [forLoop])
  | succ n ih =>
    intro i bi reads hin
    have hsz : EXIT_MSG_SZ = 16 := rfl
    by_cases hm : (buffer (bi + 1) != EXIT_MSG_at i) = true
    · have hr : forLoop buffer (n + 1) i bi reads = (false, bi + 1, reads ++ [bi + 1]) := by
        simp only [forLoop, hm, if_true]
      rw [hr]
      refine ⟨by simp, by simp, by simp, ?_, ?_, by simp, ?_⟩
      · intro x hx
        simp only [List.mem_append, List.mem_singleton] at hx
        rcases hx with hx | hx
        · exact Or.inl hx
        · exact Or.inr (by omega)
      · intro x h1 h2
        simp only at h2
        omega
      · intro hall _
        have h0 := hall 0 (by omega)
        simp only [Nat.add_zero] at h0
        simp [h0] at hm
    · have hmatch : buffer (bi + 1) = EXIT_MSG_at i := by simpa using hm
      by_cases hi : i = EXIT_MSG_SZ - 1
      · have hr : forLoop buffer (n + 1) i bi reads = (true, bi + 1, reads ++ [bi + 1]) := by
          simp only [forLoop]
          rw [if_neg hm, if_pos hi]
        have hn : n = 0 := by omega
        rw [hr]
        refine ⟨by simp, by simp, by simp, ?_, ?_, ?_, by simp⟩
        · intro x hx
          simp only [List.mem_append, List.mem_singleton] at hx
          rcases hx with hx | hx
          · exact Or.inl hx
          · exact Or.inr (by omega)
        · intro x h1 h2
          simp only at h2
          omega
        · intro _ k hk
          have hk0 : k = 0 := by omega
          subst hk0
          exact hmatch
      · have hr : forLoop buffer (n + 1) i bi reads
            = forLoop buffer n (i + 1) (bi + 1) (reads ++ [bi + 1]) := by
          simp only [forLoop]
          rw [if_neg hm, if_neg hi]
        have hn : 0 < n := by omega
        obtain ⟨h1, h2, h3, h4, h5, h6, h7⟩ := ih (i + 1) (bi + 1) (reads ++ [bi + 1]) (by omega)
        rw [hr]
        refine ⟨by omega, by omega, fun _ => by omega, ?_, ?_, ?_, ?_⟩
        · intro x hx
          rcases h4 x hx with hx | hx
          · simp only [List.mem_append, List.mem_singleton] at hx
            rcases hx with hx | hx
            · exact Or.inl hx
            · exact Or.inr (by omega)
          · exact Or.inr (by omega)
        · intro x hx1 hx2
          by_cases hx : x = bi + 1
          · subst hx
            simpa using hmatch
          · have := h5 x (by omega) hx2
            rw [this]
            congr 1
            omega
        · intro ht k hk
          cases k with
          | zero => simpa using hmatch
          | succ k =>
            have := h6 ht k (by omega)
            rw [show bi + 1 + (k + 1) = bi + 1 + 1 + k by omega, this]
            congr 1
            omega
        · intro hall _
          refine h7 (fun k hk => ?_) hn
          have := hall (k + 1) (by omega)
          rw [show bi + 1 + 1 + k = bi + 1 + (k + 1) by omega, this]
          congr 1
          omega

/-- A turn of the `while` loop whose test fails. -/
theorem whileLoop_stop (buffer : Nat → Char) {bytes_read : Int} (fuel : Nat) {bi : Nat}
    (reads : List Nat) (h : ¬ bytes_read - (bi : Int) ≥ (EXIT_MSG_SZ : Int)) :
    whileLoop buffer bytes_read (fuel + 1) bi reads = (false, reads) := by
  simp only [whileLoop]
  rw [if_neg h]

/-- A turn of the `while` loop on a byte that is not the first of the message. -/
theorem whileLoop_skip {buffer : Nat → Char} {bytes_read : Int} (fuel : Nat) {bi : Nat}
    (reads : List Nat) (h : bytes_read - (bi : Int) ≥ (EXIT_MSG_SZ : Int))
    (hne : (buffer bi == EXIT_MSG_at 0) = false) :
    whileLoop buffer bytes_read (fuel + 1) bi reads
      = whileLoop buffer bytes_read fuel (bi + 1) (reads ++ [bi]) := by
  simp only [whileLoop]
  rw [if_pos h]
  simp [hne]

/-- A turn of the `while` loop in which the `for` loop reaches `return true`. -/
theorem whileLoop_found {buffer : Nat → Char} {bytes_read : Int} (fuel : Nat) {bi : Nat}
    (reads : List Nat) (h : bytes_read - (bi : Int) ≥ (EXIT_MSG_SZ : Int))
    (heq : (buffer bi == EXIT_MSG_at 0) = true)
    (hf : (forLoop buffer (EXIT_MSG_SZ - 1) 1 bi (reads ++ [bi])).1 = true) :
    whileLoop buffer bytes_read (fuel + 1) bi reads
      = (true, (forLoop buffer (EXIT_MSG_SZ - 1) 1 bi (reads ++ [bi])).2.2) := by
  simp only [whileLoop]
  rw [if_pos h]
  simp only [heq, if_true]
  cases hfl : forLoop buffer (EXIT_MSG_SZ - 1) 1 bi (reads ++ [bi]) with
  | mk b rest =>
    cases rest with
    | mk bi2 reads2 =>
      rw [hfl] at hf
      simp only at hf
      subst hf
      rfl

/-- A turn of the `while` loop in which the `for` loop is left by `break`. -/
theorem whileLoop_retry {buffer : Nat → Char} {bytes_read : Int} (fuel : Nat) {bi : Nat}
    (reads : List Nat) (h : bytes_read - (bi : Int) ≥ (EXIT_MSG_SZ : Int))
    (heq : (buffer bi == EXIT_MSG_at 0) = true)
    (hf : (forLoop buffer (EXIT_MSG_SZ - 1) 1 bi (reads ++ [bi])).1 = false) :
    whileLoop buffer bytes_read (fuel + 1) bi reads
      = whileLoop buffer bytes_read fuel
          ((forLoop buffer (EXIT_MSG_SZ - 1) 1 bi (reads ++ [bi])).2.1 + 1)
          (forLoop buffer (EXIT_MSG_SZ - 1) 1 bi (reads ++ [bi])).2.2 := by
  simp only [whileLoop]
  rw [if_pos h]
  simp only [heq, if_true]
  cases hfl : forLoop buffer (EXIT_MSG_SZ - 1) 1 bi (reads ++ [bi]) with
  | mk b rest =>
    cases rest with
    | mk bi2 reads2 =>
      rw [hfl] at hf
      simp only at hf
      subst hf
      rfl

/-- When the scan returns true, the 16 bytes of the message lie in the buffer,
wholly within the first `bytes_read` bytes. -/
theorem whileLoop_sound (buffer : Nat → Char) (bytes_read : Int) (fuel : Nat) :
    ∀ (bi : Nat) (reads : List Nat),
      (whileLoop buffer bytes_read fuel bi reads).1 = true →
      ∃ s : Nat, (s : Int) + 16 ≤ bytes_read ∧
        ∀ j, j < 16 → buffer (s + j) = EXIT_MSG_at j := by
  induction fuel with
  | zero => intro bi reads h; simp [whileLoop] at h
  | succ fuel ih =>
    intro bi reads h
    by_cases hc : bytes_read - (bi : Int) ≥ (EXIT_MSG_SZ : Int)
    · cases heq : buffer bi == EXIT_MSG_at 0 with
      | false =>
        rw [whileLoop_skip fuel reads hc heq] at h
        exact ih _ _ h
      | true =>
        cases hf : (forLoop buffer (EXIT_MSG_SZ - 1) 1 bi (reads ++ [bi])).1 with
        | false =>
          rw [whileLoop_retry fuel reads hc heq hf] at h
          exact ih _ _ h
        | true =>
          obtain ⟨_, _, _, _, _, h6, _⟩ :=
            forLoop_spec buffer (EXIT_MSG_SZ - 1) 1 bi (reads ++ [bi]) rfl
          have hall := h6 hf
          have hsz : (EXIT_MSG_SZ : Int) = 16 := rfl
          refine ⟨bi, by omega, fun j hj => ?_⟩
          cases j with
          | zero => simpa using heq
          | succ k =>
            have := hall k (by simp [EXIT_MSG_SZ]; omega)
            rw [show bi + (k + 1) = bi + 1 + k by omega, this, Nat.add_comm]
    · rw [whileLoop_stop buffer fuel reads hc] at h
      simp at h

/-- Every index the scan reads lies below `bytes_read`. -/
theorem whileLoop_reads (buffer : Nat → Char) (bytes_read : Int) (fuel : Nat) :
    ∀ (bi : Nat) (reads : List Nat),
      ∀ x ∈ (whileLoop buffer bytes_read fuel bi reads).2, x ∈ reads ∨ (x : Int) < bytes_read := by
  induction fuel with
  | zero => intro bi reads x hx; exact Or.inl hx
  | succ fuel ih =>
    intro bi reads x hx
    by_cases hc : bytes_read - (bi : Int) ≥ (EXIT_MSG_SZ : Int)
    · have hsz : (EXIT_MSG_SZ : Int) = 16 := rfl
      have hsz2 : EXIT_MSG_SZ - 1 = 15 := rfl
      obtain ⟨_, h2, _, h4, _, _, _⟩ :=
        forLoop_spec buffer (EXIT_MSG_SZ - 1) 1 bi (reads ++ [bi]) rfl
      have hfor : ∀ y ∈ (forLoop buffer (EXIT_MSG_SZ - 1) 1 bi (reads ++ [bi])).2.2,
          y ∈ reads ∨ (y : Int) < bytes_read := by
        intro y hy
        rcases h4 y hy with hy | hy
        · simp only [List.mem_append, List.mem_singleton] at hy
          rcases hy with hy | hy
          · exact Or.inl hy
          · exact Or.inr (by omega)
        · exact Or.inr (by omega)
      cases heq : buffer bi == EXIT_MSG_at 0 with
      | false =>
        rw [whileLoop_skip fuel reads hc heq] at hx
        rcases ih _ _ x hx with hx | hx
        · simp only [List.mem_append, List.mem_singleton] at hx
          rcases hx with hx | hx
          · exact Or.inl hx
          · exact Or.inr (by omega)
        · exact Or.inr hx
      | true =>
        cases hf : (forLoop buffer (EXIT_MSG_SZ - 1) 1 bi (reads ++ [bi])).1 with
        | false =>
          rw [whileLoop_retry fuel reads hc heq hf] at hx
          rcases ih _ _ x hx with hx | hx
          · exact hfor x hx
          · exact Or.inr hx
        | true =>
          rw [whileLoop_found fuel reads hc heq hf] at hx
          exact hfor x hx
    · rw [whileLoop_stop buffer fuel reads hc] at hx
      exact Or.inl hx

/-- Fuel above the number of bytes left to scan is never used up: any two such
amounts give the same result. -/
theorem whileLoop_fuel (buffer : Nat → Char) (bytes_read : Int) (f1 : Nat) :
    ∀ (f2 bi : Nat) (reads : List Nat),
      (bytes_read - (bi : Int)).toNat < f1 → (bytes_read - (bi : Int)).toNat < f2 →
      whileLoop buffer bytes_read f1 bi reads = whileLoop buffer bytes_read f2 bi reads := by
  induction f1 with
  | zero => intro f2 bi reads h1; omega
  | succ f1 ih =>
    intro f2 bi reads h1 h2
    cases f2 with
    | zero => omega
    | succ f2 =>
      by_cases hc : bytes_read - (bi : Int) ≥ (EXIT_MSG_SZ : Int)
      · have hsz : (EXIT_MSG_SZ : Int) = 16 := rfl
        cases heq : buffer bi == EXIT_MSG_at 0 with
        | false =>
          rw [whileLoop_skip f1 reads hc heq, whileLoop_skip f2 reads hc heq]
          exact ih _ _ _ (by omega) (by omega)
        | true =>
          cases hf : (forLoop buffer (EXIT_MSG_SZ - 1) 1 bi (reads ++ [bi])).1 with
          | false =>
            obtain ⟨h1b, _, _, _, _, _, _⟩ :=
              forLoop_spec buffer (EXIT_MSG_SZ - 1) 1 bi (reads ++ [bi]) rfl
            rw [whileLoop_retry f1 reads hc heq hf, whileLoop_retry f2 reads hc heq hf]
            exact ih _ _ _ (by omega) (by omega)
          | true =>
            rw [whileLoop_found f1 reads hc heq hf, whileLoop_found f2 reads hc heq hf]
      · rw [whileLoop_stop buffer f1 reads hc, whileLoop_stop buffer f2 reads hc]

theorem EXIT_MSG_at_ne_nul : ∀ k, k < 15 → EXIT_MSG_at k ≠ Char.ofNat 0 := by
  decide

/-- The scan returns true when the message lies at `s`, wholly within the first
`bytes_read` bytes, and `s` is 0 or the byte before `s` is NUL: no earlier attempt
can run over `s`, because the bytes it has compared equal are not NUL. -/
theorem whileLoop_complete (buffer : Nat → Char) (bytes_read : Int) (s : Nat)
    (hin : (s : Int) + 16 ≤ bytes_read)
    (hmsg : ∀ j, j < 16 → buffer (s + j) = EXIT_MSG_at j)
    (hpre : s = 0 ∨ buffer (s - 1) = Char.ofNat 0) (fuel : Nat) :
    ∀ (bi : Nat) (reads : List Nat), bi ≤ s → s - bi < fuel →
      (whileLoop buffer bytes_read fuel bi reads).1 = true := by
  induction fuel with
  | zero => intro bi reads _ h; omega
  | succ fuel ih =>
    intro bi reads hle hfuel
    have hsz : (EXIT_MSG_SZ : Int) = 16 := rfl
    have hsz2 : EXIT_MSG_SZ - 1 = 15 := rfl
    have hc : bytes_read - (bi : Int) ≥ (EXIT_MSG_SZ : Int) := by omega
    cases heq : buffer bi == EXIT_MSG_at 0 with
    | false =>
      rw [whileLoop_skip fuel reads hc heq]
      have hne : bi ≠ s := by
        intro e
        subst e
        have := hmsg 0 (by omega)
        simp only [Nat.add_zero] at this
        simp [this] at heq
      exact ih _ _ (by omega) (by omega)
    | true =>
      have hb : buffer bi = EXIT_MSG_at 0 := by simpa using heq
      obtain ⟨_, h2, h3, _, h5, _, h7⟩ :=
        forLoop_spec buffer (EXIT_MSG_SZ - 1) 1 bi (reads ++ [bi]) rfl
      cases hf : (forLoop buffer (EXIT_MSG_SZ - 1) 1 bi (reads ++ [bi])).1 with
      | true => rw [whileLoop_found fuel reads hc heq hf]
      | false =>
        rw [whileLoop_retry fuel reads hc heq hf]
        have hlt := h3 (by omega)
        have hne : bi ≠ s := by
          intro e
          subst e
          have := h7 (fun k hk => by
            have := hmsg (k + 1) (by omega)
            rw [show bi + 1 + k = bi + (k + 1) by omega, this, Nat.add_comm]) (by omega)
          rw [hf] at this
          exact absurd this (by simp)
        have hms : (forLoop buffer (EXIT_MSG_SZ - 1) 1 bi (reads ++ [bi])).2.1 < s := by
          by_contra hge
          have hs0 : s ≠ 0 := by omega
          have hnul : buffer (s - 1) = Char.ofNat 0 := by
            rcases hpre with h | h
            · exact absurd h hs0
            · exact h
          by_cases hsb : s - 1 = bi
          · rw [hsb, hb] at hnul
            exact EXIT_MSG_at_ne_nul 0 (by omega) hnul
          · have := h5 (s - 1) (by omega) (by omega)
            rw [this] at hnul
            exact EXIT_MSG_at_ne_nul _ (by omega) hnul
        exact ih _ _ (by omega) (by omega)

/-- The scan returns true for a message at `s` that starts the chunk or follows a
NUL byte. -/
theorem foundEndMessage_of_message_at (buffer : Nat → Char) (bytes_read : Int) (s : Nat)
    (hin : (s : Int) + 16 ≤ bytes_read)
    (hmsg : ∀ j, j < 16 → buffer (s + j) = EXIT_MSG_at j)
    (hpre : s = 0 ∨ buffer (s - 1) = Char.ofNat 0) :
    foundEndMessage buffer bytes_read = true := by
  unfold foundEndMessage foundEndMessageScan
  exact whileLoop_complete buffer bytes_read s hin hmsg hpre _ 0 [] (by omega) (by omega)

theorem bufferOf_append_left (a b : Str) {i : Nat} (h : i < a.length) :
    bufferOf (a ++ b) i = bufferOf a i := by
  unfold bufferOf
  exact List.getD_append a b _ i h

theorem bufferOf_append_right (a b : Str) (i : Nat) :
    bufferOf (a ++ b) (a.length + i) = bufferOf b i := by
  unfold bufferOf
  rw [List.getD_append_right a b _ _ (by omega)]
  congr 1
  omega

/-- The bytes of a sequence of `writeToPipe` calls are empty or end in NUL. -/
theorem writes_end_in_nul (msgs : List Str) :
    (msgs.map writeToPipe).flatten = [] ∨
    ∃ front, (msgs.map writeToPipe).flatten = front ++ [Char.ofNat 0] := by
  rcases List.eq_nil_or_concat msgs with h | ⟨front, m, h⟩
  · left; subst h; rfl
  · right
    subst h
    refine ⟨(front.map writeToPipe).flatten ++ m, ?_⟩
    simp [writeToPipe]

/-- The scan returns true on a chunk made of whole `writeToPipe` messages followed
by the termination message as `writeToPipe` emits it. -/
theorem foundEndMessage_after_messages (msgs : List Str) (rest : Str) (bytes_read : Int)
    (hin : (((msgs.map writeToPipe).flatten.length : Nat) : Int) + 16 ≤ bytes_read) :
    foundEndMessage
      (bufferOf ((msgs.map writeToPipe).flatten ++ (writeToPipe EXIT_MSG ++ rest)))
      bytes_read = true := by
  apply foundEndMessage_of_message_at _ _ (msgs.map writeToPipe).flatten.length hin
  · intro j hj
    rw [bufferOf_append_right]
    rw [bufferOf_append_left _ _ (by simpa [writeToPipe, EXIT_MSG] using hj)]
    rfl
  · rcases writes_end_in_nul msgs with h | ⟨front, h⟩
    · left; rw [h]; rfl
    · right
      rw [h]
      have e : (front ++ [Char.ofNat 0]).length - 1 = front.length + 0 := by simp
      rw [e, List.append_assoc, bufferOf_append_right]
      rfl

/-! ## Further lemmas on `split` and the handlers -/

theorem contentType_other {ext : Str} (h1 : ext ≠ "png".toList) (h2 : ext ≠ "css".toList)
    (h3 : ext ≠ "js".toList) (h4 : ext ≠ "html".toList) (h5 : ext ≠ "txt".toList) :
    contentType ext = [] := by
  have e1 : (ext == "png".toList) = false := beq_false_of_ne h1
  have e2 : (ext == "css".toList) = false := beq_false_of_ne h2
  have e3 : (ext == "js".toList) = false := beq_false_of_ne h3
  have e4 : (ext == "html".toList) = false := beq_false_of_ne h4
  have e5 : (ext == "txt".toList) = false := beq_false_of_ne h5
  unfold contentType mapIndex contentType_entries
  simp only [List.lookup, e1, e2, e3, e4, e5]

/-- The function `handleGETrequest` sees its URI only through the normalised one. -/
theorem handleGETrequest_congr (fs : Str → Option ifstream) {u1 u2 : Str}
    (resp : http_response_t) (h : normalizeURI u1 = normalizeURI u2) :
    handleGETrequest fs u1 resp = handleGETrequest fs u2 resp := by
  unfold handleGETrequest
  simp only [h]

theorem normalizeURI_eq_quit_iff (uri : Str) :
    normalizeURI uri = QUIT_SERVER ↔ uri = QUIT_SERVER := by
  unfold normalizeURI
  by_cases h : uri = [] ∨ uri = "/".toList
  · rw [if_pos h]
    constructor
    · intro e; exact absurd e (by decide)
    · intro e
      rcases h with h | h
      · rw [h] at e; exact absurd e (by decide)
      · rw [h] at e; exact absurd e (by decide)
  · rw [if_neg h]

/-! ## The claims on the log channel, the shutdown and the content type -/

/-- C11, evaluated where the code departs from it: in the 17-byte chunk made of `S`
and the termination message, the message lies at offset 1, wholly within the
chunk.  The scan takes the `S` at offset 0 for the start of the message, meets the
second `S` where it expects `h`, leaves the `for` loop and steps over that second
`S`; it reads the indices 0 and 1 only and returns false. -/
theorem message_behind_its_first_byte_is_missed :
    foundEndMessageScan (bufferOf ("SShutting down.\n".toList ++ [Char.ofNat 0])) 17
      = (false, [0, 1]) ∧
    ((1 : Nat) : Int) + 16 ≤ 17 ∧
    ∀ j, j < 16 →
      bufferOf ("SShutting down.\n".toList ++ [Char.ofNat 0]) (1 + j) = EXIT_MSG_at j := by
  decide

/-- C12: `handleGETrequest` shuts the listening socket down exactly when the file does
not open and the normalised URI, equally the URI itself, is `/quit`.  When the
file does not open the response is the not-found one whatever the URI: status 404,
body `GET <uri> failed`, Content-Type `text/plaintext`, Content-Length the decimal
length of the body.  When the file opens no shutdown is issued. -/
theorem shutdown_exactly_on_quit_not_found (fs : Str → Option ifstream) (uri : Str)
    (resp : http_response_t) :
    (fs (".".toList ++ normalizeURI uri) = none →
      ∃ out, handleGETrequest fs uri resp = some out ∧
        (out.shutdown = true ↔ normalizeURI uri = QUIT_SERVER) ∧
        out.response.status_code = 404 ∧
        out.response.body = "GET ".toList ++ normalizeURI uri ++ " failed".toList ∧
        out.response.headers = resp.headers ++
          [{ key := "Content-Type".toList, value := "text/plaintext".toList },
           { key := "Content-Length".toList,
             value := to_string_nat out.response.body.length }]) ∧
    (∀ file, fs (".".toList ++ normalizeURI uri) = some file →
      ∀ out, handleGETrequest fs uri resp = some out → out.shutdown = false) ∧
    (normalizeURI uri = QUIT_SERVER ↔ uri = QUIT_SERVER) := by
  refine ⟨fun hf => ?_, fun file hf out hout => ?_, normalizeURI_eq_quit_iff uri⟩
  · rw [handleGETrequest_not_found resp hf]
    exact ⟨_, rfl, by simp, rfl, rfl, rfl⟩
  · by_cases hs : 0 ≤ file.tellg_end
    · obtain ⟨_, _, hget⟩ := handleGETrequest_found resp hf hs
      rw [hget] at hout
      cases hout
      rfl
    · rw [handleGETrequest_negative resp hf (by omega)] at hout
      exact absurd hout (by simp)

theorem shutdown_exactly_on_quit_not_found_witness :
    ∃ out, handleGETrequest (fun _ => none) "/quit".toList http_response_t.fresh = some out ∧
      (out.shutdown = true ↔ normalizeURI "/quit".toList = QUIT_SERVER) ∧
      out.response.status_code = 404 ∧
      out.response.body = "GET ".toList ++ normalizeURI "/quit".toList ++ " failed".toList ∧
      out.response.headers = http_response_t.fresh.headers ++
        [{ key := "Content-Type".toList, value := "text/plaintext".toList },
         { key := "Content-Length".toList,
           value := to_string_nat out.response.body.length }] :=
  (shutdown_exactly_on_quit_not_found (fun _ => none) "/quit".toList
    http_response_t.fresh).1 rfl

/-- C13: for every file-system state, a GET request whose URI is empty or `/` gets the
same response, or the same lack of one, as a GET request whose URI is
`/index.html`: status, status text, headers and body are equal. -/
theorem default_document_same_response (fs : Str → Option ifstream) (r1 r2 : Str)
    (q1 q2 : http_request_t)
    (hp1 : parseHTTPrequest r1 = some q1) (hp2 : parseHTTPrequest r2 = some q2)
    (hv1 : q1.verb = HttpRequestType.GET) (hv2 : q2.verb = HttpRequestType.GET)
    (hu1 : q1.uri = [] ∨ q1.uri = "/".toList) (hu2 : q2.uri = DEFAULT_URI) :
    (handleHTTPrequest fs r1).map (fun h => h.response)
      = (handleHTTPrequest fs r2).map (fun h => h.response) := by
  have hn : normalizeURI q1.uri = normalizeURI q2.uri := by
    rw [hu2]
    unfold normalizeURI
    rw [if_pos hu1, if_neg (by decide)]
  rw [handleHTTPrequest_GET fs hp1 hv1, handleHTTPrequest_GET fs hp2 hv2,
    handleGETrequest_congr fs _ hn]
  cases handleGETrequest fs q2.uri http_response_t.fresh <;> rfl

theorem default_document_same_response_witness :
    (handleHTTPrequest (fun _ => some { tellg_end := 2, content := "hi".toList, bad := false })
        "GET / HTTP/1.1".toList).map (fun h => h.response)
      = (handleHTTPrequest
          (fun _ => some { tellg_end := 2, content := "hi".toList, bad := false })
          "GET /index.html HTTP/1.1".toList).map (fun h => h.response) :=
  default_document_same_response
    (fun _ => some { tellg_end := 2, content := "hi".toList, bad := false })
    "GET / HTTP/1.1".toList "GET /index.html HTTP/1.1".toList
    { verb := HttpRequestType.GET, version := "1.1".toList, uri := "/".toList, headers := [] }
    { verb := HttpRequestType.GET, version := "1.1".toList, uri := "/index.html".toList,
      headers := [] }
    (by decide) (by decide) rfl rfl (Or.inr rfl) rfl

/-- C14 fails as stated: the URI `txt` has no `.` and the URI `/a.txt.` ends in `.`, yet
both get `text/plaintext`, not the empty string; and the empty URI has no result,
the index `tokens.size() - 1` being out of range. -/
theorem content_type_without_extension :
    '.' ∉ "txt".toList ∧
    getURIContentType "txt".toList = some "text/plaintext".toList ∧
    getURIContentType "/a.txt.".toList = some "text/plaintext".toList ∧
    getURIContentType [] = none := by
  decide

/-- C14, amended: for every URI that is not empty, `getURIContentType` looks up the
last piece of the URI cut at `.` and returns the table entry when that piece is one
of png, css, js, html, txt and the empty string when it is not in the table.  The
piece is the text behind the last `.` of the URI when this text is not empty, and
the whole URI when it has no `.`; a URI made of such a URI and one final `.` gets
the result of the URI without the final `.`; the URI `.` and every URI ending in
two `.` get the empty string; every URI has one of these shapes.  The empty URI
has no result. -/
theorem content_type_of_last_piece :
    (∀ front ext : Str, ext ≠ [] → '.' ∉ ext →
      getURIContentType (front ++ '.' :: ext) = some (contentType ext)) ∧
    (∀ uri : Str, uri ≠ [] → '.' ∉ uri → getURIContentType uri = some (contentType uri)) ∧
    (∀ uri : Str, uri ≠ [] → uri.getLast? ≠ some '.' →
      getURIContentType (uri ++ ['.']) = getURIContentType uri) ∧
    contentType "png".toList = "image/png".toList ∧
    contentType "css".toList = "text/css".toList ∧
    contentType "js".toList = "text/javascript".toList ∧
    contentType "html".toList = "text/html".toList ∧
    contentType "txt".toList = "text/plaintext".toList ∧
    (∀ ext : Str, ext ≠ "png".toList → ext ≠ "css".toList → ext ≠ "js".toList →
      ext ≠ "html".toList → ext ≠ "txt".toList → contentType ext = []) ∧
    (∀ v : Str, v ≠ [] → '.' ∉ v → getURIContentType (v ++ ['.']) = some (contentType v)) ∧
    (∀ front ext : Str, ext ≠ [] → '.' ∉ ext →
      getURIContentType (front ++ '.' :: (ext ++ ['.'])) = some (contentType ext)) ∧
    getURIContentType ['.'] = some [] ∧
    (∀ w : Str, getURIContentType (w ++ ['.', '.']) = some []) ∧
    getURIContentType [] = none ∧
    (∀ uri : Str,
      uri = [] ∨
      (uri ≠ [] ∧ '.' ∉ uri) ∨
      (∃ front ext, uri = front ++ '.' :: ext ∧ ext ≠ [] ∧ '.' ∉ ext) ∨
      (∃ v, uri = v ++ ['.'] ∧ v ≠ [] ∧ '.' ∉ v) ∨
      (∃ front ext, uri = front ++ '.' :: (ext ++ ['.']) ∧ ext ≠ [] ∧ '.' ∉ ext) ∨
      uri = ['.'] ∨
      (∃ w, uri = w ++ ['.', '.'])) := by
  refine ⟨fun front ext hne hdot => ?_, fun uri hne hdot => ?_, fun uri hne hlast => ?_,
    by decide, by decide, by decide, by decide, by decide,
    fun ext h1 h2 h3 h4 h5 => contentType_other h1 h2 h3 h4 h5,
    fun v hne hdot => ?_, fun front ext hne hdot => ?_, by decide, fun w => ?_, by decide,
    fun uri => text_shapes uri '.'⟩
  · unfold getURIContentType
    simp only
    rw [split_getLast '.' hne hdot front.length front (Nat.le_refl _)]
  · unfold getURIContentType
    simp only
    rw [split_no_delim hne hdot]
    rfl
  · unfold getURIContentType
    simp only
    rw [split_snoc_delim '.' uri.length uri (Nat.le_refl _) hne hlast]
  · unfold getURIContentType
    simp only
    rw [split_snoc_delim '.' v.length v (Nat.le_refl _) hne (getLast?_ne_of_not_mem hdot),
      split_no_delim hne hdot]
    rfl
  · have e : front ++ '.' :: (ext ++ ['.']) = (front ++ '.' :: ext) ++ ['.'] := by simp
    unfold getURIContentType
    simp only
    rw [e, split_snoc_delim '.' _ _ (Nat.le_refl _) (by simp) (getLast?_ne_of_ext hne hdot),
      split_getLast '.' hne hdot front.length front (Nat.le_refl _)]
  · unfold getURIContentType
    simp only
    rw [split_double_delim '.' w.length w (Nat.le_refl _)]
    rfl

theorem content_type_of_last_piece_witness :
    getURIContentType ("/site/app.min".toList ++ '.' :: "js".toList)
      = some (contentType "js".toList) ∧
    getURIContentType "README".toList = some (contentType "README".toList) ∧
    getURIContentType ("/a.png".toList ++ ['.']) = getURIContentType "/a.png".toList ∧
    contentType "README".toList = [] ∧
    getURIContentType ("readme".toList ++ ['.']) = some (contentType "readme".toList) ∧
    getURIContentType ("/a".toList ++ '.' :: ("txt".toList ++ ['.']))
      = some (contentType "txt".toList) :=
  ⟨content_type_of_last_piece.1 "/site/app.min".toList "js".toList (by decide) (by decide),
   content_type_of_last_piece.2.1 "README".toList (by decide) (by decide),
   content_type_of_last_piece.2.2.1 "/a.png".toList (by decide) (by decide),
   content_type_of_last_piece.2.2.2.2.2.2.2.2.1 "README".toList (by decide) (by decide)
     (by decide) (by decide) (by decide),
   content_type_of_last_piece.2.2.2.2.2.2.2.2.2.1 "readme".toList (by decide) (by decide),
   content_type_of_last_piece.2.2.2.2.2.2.2.2.2.2.1 "/a".toList "txt".toList (by decide)
     (by decide)⟩

/-- C16, evaluated where the code departs from it: for the request `PUT / HTTP/1.1`
the status text is the log line `Unknown HTTP request PUT` with its line feed, so
the serialised status line is cut by a bare LF before its CRLF.  The file-not-found
response of `GET /x HTTP/1.1` has the status text `File not found` and a header
block of three CRLF-ended lines and the empty line. -/
theorem unknown_verb_status_text_holds_line_feed :
    (handleHTTPrequest (fun _ => none) "PUT / HTTP/1.1".toList).map
        (fun h => (h.response.status_txt, h.response.to_string))
      = some ("Unknown HTTP request PUT\n".toList,
              "HTTP/1.0 404 Unknown HTTP request PUT\n\r\n\r\n".toList) ∧
    '\n' ∈ "Unknown HTTP request PUT\n".toList ∧
    (handleHTTPrequest (fun _ => none) "GET /x HTTP/1.1".toList).map
        (fun h => (h.response.status_txt, h.response.to_string))
      = some ("File not found".toList,
              ("HTTP/1.0 404 File not found\r\nContent-Type: text/plaintext\r\n"
                ++ "Content-Length: 13\r\n\r\n").toList) := by
  decide

/-- C18: the scan returns true for every chunk in which the 16 bytes of the
termination message, NUL included, start at offset 0 or right behind a NUL byte and
lie wholly within the first `bytes_read` bytes; so it does for a chunk made of
whole `writeToPipe` messages followed by the termination message as `writeToPipe`
emits it, whatever follows. -/
theorem sentinel_is_detected :
    (∀ (buffer : Nat → Char) (bytes_read : Int) (s : Nat),
      (s : Int) + 16 ≤ bytes_read →
      (∀ j, j < 16 → buffer (s + j) = EXIT_MSG_at j) →
      (s = 0 ∨ buffer (s - 1) = Char.ofNat 0) →
      foundEndMessage buffer bytes_read = true) ∧
    (∀ (msgs : List Str) (rest : Str) (bytes_read : Int),
      (((msgs.map writeToPipe).flatten.length : Nat) : Int) + 16 ≤ bytes_read →
      foundEndMessage
        (bufferOf ((msgs.map writeToPipe).flatten ++ (writeToPipe EXIT_MSG ++ rest)))
        bytes_read = true) ∧
    writeToPipe EXIT_MSG = EXIT_MSG_bytes ∧ EXIT_MSG_bytes.length = 16 :=
  ⟨foundEndMessage_of_message_at, foundEndMessage_after_messages, rfl, rfl⟩

theorem sentinel_is_detected_witness :
    foundEndMessage
      (bufferOf ((["Listening on port 8080\n".toList,
            "Accepted connection on socket 4\n".toList].map writeToPipe).flatten
          ++ (writeToPipe EXIT_MSG ++ [])))
      73 = true :=
  sentinel_is_detected.2.1
    ["Listening on port 8080\n".toList, "Accepted connection on socket 4\n".toList] [] 73
    (by decide)

/-- C19: when `foundEndMessage` returns true, the 16 bytes of the termination message
lie contiguously within the first `bytes_read` bytes of the buffer; every index the
scan reads is below `bytes_read`; for `bytes_read` below 16, zero and negative
values included, it returns false and reads nothing; and the scan ends, more fuel
than `bytes_read` giving the same result. -/
theorem scan_is_sound_and_in_bounds (buffer : Nat → Char) (bytes_read : Int) :
    (foundEndMessage buffer bytes_read = true →
      ∃ s : Nat, (s : Int) + 16 ≤ bytes_read ∧
        ∀ j, j < 16 → buffer (s + j) = EXIT_MSG_at j) ∧
    (∀ x ∈ (foundEndMessageScan buffer bytes_read).2, (x : Int) < bytes_read) ∧
    (bytes_read < 16 → foundEndMessageScan buffer bytes_read = (false, [])) ∧
    (∀ fuel, bytes_read.toNat < fuel →
      whileLoop buffer bytes_read fuel 0 [] = foundEndMessageScan buffer bytes_read) := by
  refine ⟨fun h => whileLoop_sound buffer bytes_read _ 0 [] h, fun x hx => ?_, fun h => ?_,
    fun fuel hfuel => ?_⟩
  · rcases whileLoop_reads buffer bytes_read _ 0 [] x hx with h | h
    · exact absurd h (by simp)
    · exact h
  · unfold foundEndMessageScan
    exact whileLoop_stop buffer _ [] (by
      have hsz : (EXIT_MSG_SZ : Int) = 16 := rfl
      omega)
  · unfold foundEndMessageScan
    exact whileLoop_fuel buffer bytes_read _ _ 0 [] (by simpa using hfuel) (by simp)

theorem scan_is_sound_and_in_bounds_witness :
    foundEndMessage (bufferOf ("ok\n".toList ++ [Char.ofNat 0] ++ EXIT_MSG_bytes)) 20 = true ∧
    (∃ s : Nat, (s : Int) + 16 ≤ 20 ∧
      ∀ j, j < 16 →
        bufferOf ("ok\n".toList ++ [Char.ofNat 0] ++ EXIT_MSG_bytes) (s + j) = EXIT_MSG_at j) ∧
    foundEndMessageScan (bufferOf EXIT_MSG_bytes) 15 = (false, []) :=
  ⟨by decide,
   (scan_is_sound_and_in_bounds
      (bufferOf ("ok\n".toList ++ [Char.ofNat 0] ++ EXIT_MSG_bytes)) 20).1 (by decide),
   (scan_is_sound_and_in_bounds (bufferOf EXIT_MSG_bytes) 15).2.2.1 (by decide)⟩

/-- C20: for every request text whose first line splits on single spaces into exactly
three tokens, the third with at least three characters left after trimming,
`parseHTTPrequest` runs through without an index or an iterator out of range and
gives a parsed request, with the second token as its URI, whatever the other lines
hold. -/
theorem three_token_request_is_parsed (request line0 a b c : Str)
    (h0 : (split request '\n' true)[0]? = some line0)
    (h3 : split line0 ' ' true = [a, b, c])
    (hv : 3 ≤ (trim c).length) :
    ∃ q, parseHTTPrequest request = some q ∧ q.uri = b ∧
      q.verb = httpRequestToString a ∧
      q.headers = ((split request '\n' true).drop 1).filterMap headerOfLine := by
  obtain ⟨q, hq⟩ := parseHTTPrequest_isSome h0 h3 hv
  obtain ⟨l0, t0, t2, hl0, ht0, _, _, hverb, hhead, huri, _⟩ := parseHTTPrequest_some hq
  have e : l0 = line0 := Option.some.inj (hl0.symm.trans h0)
  subst e
  rw [h3] at ht0 huri
  refine ⟨q, hq, ?_, ?_, hhead⟩
  · exact (Option.some.inj (huri rfl)).symm
  · rw [hverb]
    congr 1
    exact (Option.some.inj ht0).symm

theorem three_token_request_is_parsed_witness :
    (split "GET /a HTTP/1.1\r\n:\n\n: :".toList '\n' true)[0]?
      = some "GET /a HTTP/1.1\r".toList ∧
    split "GET /a HTTP/1.1\r".toList ' ' true
      = ["GET".toList, "/a".toList, "HTTP/1.1\r".toList] ∧
    3 ≤ (trim "HTTP/1.1\r".toList).length ∧
    ∃ q, parseHTTPrequest "GET /a HTTP/1.1\r\n:\n\n: :".toList = some q ∧
      q.uri = "/a".toList ∧
      q.verb = httpRequestToString "GET".toList ∧
      q.headers
        = ((split "GET /a HTTP/1.1\r\n:\n\n: :".toList '\n' true).drop 1).filterMap
            headerOfLine :=
  ⟨by decide, by decide, by decide,
   three_token_request_is_parsed "GET /a HTTP/1.1\r\n:\n\n: :".toList
     "GET /a HTTP/1.1\r".toList "GET".toList "/a".toList "HTTP/1.1\r".toList
     (by decide) (by decide) (by decide)⟩

/-! ## Lemmas on the line feed in the logged request -/

theorem digitChar_ne_lf : ∀ d, d < 10 → Nat.digitChar d ≠ '\n' := by
  decide

theorem toDigitsCore_lf (fuel : Nat) : ∀ (n : Nat) (acc : List Char),
    '\n' ∉ acc → '\n' ∉ Nat.toDigitsCore 10 fuel n acc := by
  induction fuel with
  | zero => intro n acc h; exact h
  | succ fuel ih =>
    intro n acc h
    have hd : '\n' ∉ Nat.digitChar (n % 10) :: acc := by
      intro hm
      rcases List.mem_cons.mp hm with e | e
      · exact digitChar_ne_lf (n % 10) (Nat.mod_lt _ (by omega)) e.symm
      · exact h e
    simp only [Nat.toDigitsCore]
    by_cases h0 : n / 10 = 0
    · rw [if_pos h0]; exact hd
    · rw [if_neg h0]; exact ih _ _ hd

/-- The decimal text of a number holds no line feed. -/
theorem to_string_nat_lf (n : Nat) : '\n' ∉ to_string_nat n := by
  unfold to_string_nat Nat.toDigits
  exact toDigitsCore_lf _ _ _ (by simp)

/-- Every piece of `split` is a part of the text that was split. -/
theorem split_piece_sublist (recurse : Bool) : ∀ (n : Nat) (s : Str) (d : Char),
    s.length ≤ n → ∀ p ∈ split s d recurse, p.Sublist s := by
  intro n
  induction n with
  | zero =>
    intro s d hlen p hp
    have : s = [] := List.length_eq_zero.mp (by omega)
    subst this
    rw [split_nil] at hp
    exact absurd hp (by simp)
  | succ n ih =>
    intro s d hlen p hp
    by_cases hs : s = []
    · subst hs
      rw [split_nil] at hp
      exact absurd hp (by simp)
    · rw [split_step hs] at hp
      rcases List.mem_cons.mp hp with e | hp
      · rw [e]
        exact List.takeWhile_sublist _
      · have hlt := rest_length_lt hs d
        have := ih _ _ (by omega) p hp
        exact this.trans ((List.drop_sublist _ _).trans (List.dropWhile_sublist _))

/-- No piece of `split` holds the delimiter when it stays the same. -/
theorem split_piece_no_delim (d : Char) : ∀ (n : Nat) (s : Str),
    s.length ≤ n → ∀ p ∈ split s d true, d ∉ p := by
  intro n
  induction n with
  | zero =>
    intro s hlen p hp
    have : s = [] := List.length_eq_zero.mp (by omega)
    subst this
    rw [split_nil] at hp
    exact absurd hp (by simp)
  | succ n ih =>
    intro s hlen p hp
    by_cases hs : s = []
    · subst hs
      rw [split_nil] at hp
      exact absurd hp (by simp)
    · rw [split_step hs] at hp
      simp only [if_true] at hp
      rcases List.mem_cons.mp hp with e | hp
      · rw [e]
        intro hm
        have := List.mem_takeWhile_imp hm
        simp at this
      · have hlt := rest_length_lt hs d
        exact ih _ (by omega) p hp

/-- The key and the value of a header are parts of the line they come from. -/
theorem headerOfLine_sublist {line : Str} {h : http_header_t}
    (hh : headerOfLine line = some h) : h.key.Sublist line ∧ h.value.Sublist line := by
  unfold headerOfLine at hh
  have hsub := split_piece_sublist false (trim line).length (trim line) ':' (Nat.le_refl _)
  match hs : split (trim line) ':' false, hh with
  | k :: v :: rest, hh =>
    rw [hs] at hsub
    simp only [Option.some.injEq] at hh
    subst hh
    exact ⟨(trim_sublist k).trans ((hsub k (by simp)).trans (trim_sublist line)),
      (trim_sublist v).trans ((hsub v (by simp)).trans (trim_sublist line))⟩

theorem requestHeadersLoop_eq (headers : List http_header_t) : ∀ sso : Str,
    requestHeadersLoop headers sso
      = sso ++ (headers.map
          (fun h => " ".toList ++ h.key ++ ": ".toList ++ h.value)).flatten := by
  induction headers with
  | nil => intro sso; simp [requestHeadersLoop]
  | cons h hs ih =>
    intro sso
    simp [requestHeadersLoop, ih, http_header_t.to_string]

theorem cleanHttpVersion_some {v r : Str} (h : cleanHttpVersion v = some r) :
    r.length = 3 ∧ r.Sublist v := by
  unfold cleanHttpVersion at h
  simp only at h
  by_cases hl : (trim v).length < 3
  · rw [if_pos hl] at h; exact absurd h (by simp)
  · rw [if_neg hl] at h
    cases h
    refine ⟨by rw [List.length_drop]; omega, (List.drop_sublist _ _).trans (trim_sublist v)⟩

theorem request_to_string_eq (q : http_request_t) :
    q.to_string
      = stringToHttpRequest q.verb ++ " ".toList ++ q.uri ++ " version ".toList ++ q.version
        ++ (q.headers.map
            (fun h => " ".toList ++ h.key ++ ": ".toList ++ h.value)).flatten := by
  unfold http_request_t.to_string
  rw [requestHeadersLoop_eq]

/-- The text of a parsed request holds no line feed and has at least 14
characters. -/
theorem parsed_request_text {request : Str} {q : http_request_t}
    (hp : parseHTTPrequest request = some q) :
    '\n' ∉ q.to_string ∧ 14 ≤ q.to_string.length := by
  obtain ⟨line0, tok0, tok2, h0, _, ht2, hver, _, hhead, h3, hn3⟩ := parseHTTPrequest_some hp
  have hline : ∀ line ∈ split request '\n' true, '\n' ∉ line :=
    split_piece_no_delim '\n' request.length request (Nat.le_refl _)
  have hl0 : '\n' ∉ line0 := hline line0 (List.getElem?_mem h0)
  have htok : ∀ t ∈ split line0 ' ' true, '\n' ∉ t := fun t ht hm =>
    hl0 ((split_piece_sublist true line0.length line0 ' ' (Nat.le_refl _) t ht).subset hm)
  obtain ⟨hvlen, hvsub⟩ := cleanHttpVersion_some hver
  have hversion : '\n' ∉ q.version := fun hm =>
    htok tok2 (List.getElem?_mem ht2) (hvsub.subset hm)
  have huri : '\n' ∉ q.uri := by
    by_cases hlen : (split line0 ' ' true).length = 3
    · exact htok q.uri (List.getElem?_mem (h3 hlen))
    · rw [hn3 hlen]; decide
  have hverb : '\n' ∉ stringToHttpRequest q.verb := by
    cases q.verb <;> decide
  have hverblen : 3 ≤ (stringToHttpRequest q.verb).length := by
    cases q.verb <;> decide
  have hheaders : ∀ h ∈ q.headers, '\n' ∉ h.key ∧ '\n' ∉ h.value := by
    intro h hh
    rw [hhead, List.mem_filterMap] at hh
    obtain ⟨line, hmem, hl⟩ := hh
    have hnl := hline line (List.mem_of_mem_drop hmem)
    obtain ⟨hk, hv⟩ := headerOfLine_sublist hl
    exact ⟨fun hm => hnl (hk.subset hm), fun hm => hnl (hv.subset hm)⟩
  constructor
  · rw [request_to_string_eq]
    intro hm
    simp only [List.mem_append, List.mem_flatten, List.mem_map] at hm
    rcases hm with ((((hm | hm) | hm) | hm) | hm) | ⟨l, ⟨h, hh, rfl⟩, hm⟩
    · exact hverb hm
    · exact absurd hm (by decide)
    · exact huri hm
    · exact absurd hm (by decide)
    · exact hversion hm
    · simp only [List.mem_append] at hm
      rcases hm with ((hm | hm) | hm) | hm
      · exact absurd hm (by decide)
      · exact (hheaders h hh).1 hm
      · exact absurd hm (by decide)
      · exact (hheaders h hh).2 hm
  · rw [request_to_string_eq]
    simp only [List.length_append]
    have : " version ".toList.length = 9 := rfl
    omega

theorem ext_getD {l1 l2 : Str} (hl : l1.length = l2.length)
    (h : ∀ j, j < l1.length → l1.getD j (Char.ofNat 0) = l2.getD j (Char.ofNat 0)) :
    l1 = l2 := by
  apply List.ext_getElem hl
  intro n h1 h2
  have := h n h1
  rwa [List.getD_eq_getElem _ _ h1, List.getD_eq_getElem _ _ h2] at this

theorem EXIT_MSG_at_text : ∀ j, j < 14 →
    EXIT_MSG_at j = "Shutting down.".toList.getD j (Char.ofNat 0) := by
  decide

/-- In the bytes of a text without line feed, followed by a line feed and NUL, the
termination message can only lie at the very end, and then every part of the text
that ends it and has 14 characters or more ends in `Shutting down.`. -/
theorem message_at_end_of_text {X T : Str} (hX : '\n' ∉ X) (hT : T <:+ X)
    (hlen : 14 ≤ T.length) {s : Nat}
    (hin : s + 16 ≤ (X ++ ['\n', Char.ofNat 0]).length)
    (hmsg : ∀ j, j < 16 → bufferOf (X ++ ['\n', Char.ofNat 0]) (s + j) = EXIT_MSG_at j) :
    "Shutting down.".toList <:+ T := by
  have hlen2 : (X ++ ['\n', Char.ofNat 0]).length = X.length + 2 := by simp
  rw [hlen2] at hin
  have hs : s + 14 = X.length := by
    by_contra hne
    have hlt : s + 14 < X.length := by omega
    have h14 := hmsg 14 (by omega)
    rw [bufferOf_append_left _ _ hlt] at h14
    unfold bufferOf at h14
    rw [List.getD_eq_getElem _ _ hlt] at h14
    have hmem : X[s + 14] ∈ X := List.getElem_mem _
    rw [h14] at hmem
    exact hX hmem
  have hdrop : X.drop s = "Shutting down.".toList := by
    apply ext_getD
    · rw [List.length_drop]
      have : "Shutting down.".toList.length = 14 := rfl
      omega
    · intro j hj
      rw [List.length_drop] at hj
      have hj14 : j < 14 := by omega
      have hm := hmsg j (by omega)
      rw [bufferOf_append_left _ _ (by omega)] at hm
      unfold bufferOf at hm
      rw [← EXIT_MSG_at_text j hj14, ← hm]
      simp [List.getElem?_drop]
  have hsuf : "Shutting down.".toList <:+ X := by
    rw [← hdrop]
    exact List.drop_suffix _ _
  exact List.suffix_of_suffix_length_le hsuf hT (by
    have : "Shutting down.".toList.length = 14 := rfl
    omega)

/-- The first message `handleHTTPrequest` gives to `writeToPipe`. -/
theorem handleHTTPrequest_piped {fs : Str → Option ifstream} {request : Str}
    {q : http_request_t} {h : Handled}
    (hp : parseHTTPrequest request = some q) (hh : handleHTTPrequest fs request = some h) :
    h.piped.head? = some (readMessage request q) := by
  by_cases hv : q.verb = HttpRequestType.GET
  · rw [handleHTTPrequest_GET fs hp hv] at hh
    cases hg : handleGETrequest fs q.uri http_response_t.fresh with
    | none => rw [hg] at hh; exact absurd hh (by simp)
    | some out =>
      rw [hg] at hh
      cases hh
      rfl
  · rw [handleHTTPrequest_other fs hp hv] at hh
    cases hh
    rfl

/-! ## The claim on the logged request -/

/-- C17 fails as stated: the request `GET / HTTP/1.1` with the header line
`X: Shutting down.` is logged as `Read 32 bytes: GET / version 1.1 X: Shutting down.`
with a line feed, and with the NUL that `writeToPipe` appends these bytes end in the
termination message: `foundEndMessage` returns true on them. -/
theorem client_header_stops_the_logger :
    (handleHTTPrequest (fun _ => none) "GET / HTTP/1.1\nX: Shutting down.".toList).map
        (fun h => h.piped.head?)
      = some (some "Read 32 bytes: GET / version 1.1 X: Shutting down.\n".toList) ∧
    foundEndMessage
      (bufferOf (writeToPipe "Read 32 bytes: GET / version 1.1 X: Shutting down.\n".toList))
      52 = true ∧
    (writeToPipe "Read 32 bytes: GET / version 1.1 X: Shutting down.\n".toList).length = 52 := by
  decide

/-- C17, amended: for every client request text that is parsed and whose logged text
`request.to_string()` does not end in `Shutting down.`, the bytes given to the log
channel for the parsed request, `Read <length> bytes: <text>`, a line feed and the
NUL of `writeToPipe`, do not make `foundEndMessage` return true, for any
`bytes_read` up to their number; and this message is the first one
`handleHTTPrequest` gives to `writeToPipe`. -/
theorem logged_request_is_not_the_sentinel (request : Str) (q : http_request_t)
    (bytes_read : Int)
    (hp : parseHTTPrequest request = some q)
    (hend : ¬ "Shutting down.".toList <:+ q.to_string)
    (hbr : bytes_read ≤ ((writeToPipe (readMessage request q)).length : Nat)) :
    foundEndMessage (bufferOf (writeToPipe (readMessage request q))) bytes_read = false ∧
    ∀ (fs : Str → Option ifstream) (h : Handled),
      handleHTTPrequest fs request = some h →
        h.piped.head? = some (readMessage request q) := by
  refine ⟨?_, fun fs h hh => handleHTTPrequest_piped hp hh⟩
  obtain ⟨hlf, hlen⟩ := parsed_request_text hp
  have hbytes : writeToPipe (readMessage request q)
      = ("Read ".toList ++ to_string_nat request.length ++ " bytes: ".toList ++ q.to_string)
        ++ ['\n', Char.ofNat 0] := by
    simp [writeToPipe, readMessage]
  rw [hbytes] at hbr ⊢
  cases hf : foundEndMessage
      (bufferOf (("Read ".toList ++ to_string_nat request.length ++ " bytes: ".toList
        ++ q.to_string) ++ ['\n', Char.ofNat 0])) bytes_read with
  | false => rfl
  | true =>
    obtain ⟨s, hin, hmsg⟩ := whileLoop_sound _ _ _ 0 [] hf
    refine absurd (message_at_end_of_text ?_ (List.suffix_append _ _) hlen (by omega) hmsg) hend
    intro hm
    simp only [List.mem_append] at hm
    rcases hm with ((hm | hm) | hm) | hm
    · exact absurd hm (by decide)
    · exact to_string_nat_lf _ hm
    · exact absurd hm (by decide)
    · exact hlf hm

theorem logged_request_is_not_the_sentinel_witness :
    parseHTTPrequest "GET /a HTTP/1.1\nHost: x".toList
      = some { verb := HttpRequestType.GET, version := "1.1".toList, uri := "/a".toList,
               headers := [{ key := "Host".toList, value := "x".toList }] } ∧
    foundEndMessage
      (bufferOf (writeToPipe (readMessage "GET /a HTTP/1.1\nHost: x".toList
        { verb := HttpRequestType.GET, version := "1.1".toList, uri := "/a".toList,
          headers := [{ key := "Host".toList, value := "x".toList }] })))
      43 = false :=
  ⟨by decide,
   (logged_request_is_not_the_sentinel "GET /a HTTP/1.1\nHost: x".toList
      { verb := HttpRequestType.GET, version := "1.1".toList, uri := "/a".toList,
        headers := [{ key := "Host".toList, value := "x".toList }] }
      43 (by decide) (by decide) (by decide)).1⟩

end HttpServer
